import Mathlib

/-
Verification of the BatchTranscriber job queue, library store and YouTube
transcript acquisition services.

The definitions below are a shallow embedding of the TypeScript sources:
  - types.ts            : JobStatus, VideoJob, LibraryItem, ApiKeyConfig
  - App.tsx             : getActiveApiKey, updateJob, addToLibrary, retryJob,
                          retryAllFailed, processJob, the main queue watcher
  - services/youtubeService.ts (src/unnamed/part_002, latest revision)
                        : extractVideoId, selectBestTrack, fetchViaSearchApi,
                          fetchYoutubeTranscript
  - services/geminiService.ts (src/unnamed/part_003)
                        : refineTranscript
Remote calls (fetch, the generative AI backend) are modelled as oracles
passed in explicitly; React state updates are modelled as explicit state
passing, and the asynchronous continuation of processJob is modelled as a
task value that captures the jobs array that was in scope when the
invocation started (the closure snapshot).
-/

namespace BatchTranscriber

/-- JobStatus from types.ts. -/
inductive JobStatus where
  | IDLE
  | UPLOADING
  | PROCESSING
  | COMPLETED
  | ERROR
deriving DecidableEq, Repr

/-- JobSource from types.ts. -/
inductive JobSource where
  | file
  | youtube
deriving DecidableEq, Repr

/-- VideoJob from types.ts.  The binary file handle is represented by an
optional opaque string. -/
structure VideoJob where
  id : String
  source : JobSource
  file : Option String
  url : Option String
  thumbnail : Option String
  name : String
  size : Option Nat
  status : JobStatus
  transcript : Option String
  error : Option String
  progress : Nat
deriving DecidableEq, Repr

/-- LibraryItem from types.ts. -/
structure LibraryItem where
  id : String
  fileName : String
  transcript : String
  createdAt : String
  fileSize : Nat
  source : Option JobSource
  url : Option String
deriving DecidableEq, Repr

/-- ApiKeyConfig from types.ts. -/
structure ApiKeyConfig where
  id : String
  name : String
  key : String
deriving DecidableEq, Repr

/-- The credential-related pieces of App state: the configured Gemini key
list, the active key id (null modelled as none) and the build-time system
key SYSTEM_API_KEY (undefined modelled as none). -/
structure KeyConfig where
  apiKeys : List ApiKeyConfig
  activeKeyId : Option String
  systemKey : Option String
deriving DecidableEq, Repr

/-- getActiveApiKey from App.tsx: if activeKeyId is set (non-null and
non-empty, JS truthiness) and names a configured key, return that key;
otherwise fall back to SYSTEM_API_KEY or the empty string. -/
def getActiveApiKey (cfg : KeyConfig) : String :=
  match cfg.activeKeyId with
  | some kid =>
    if kid = "" then cfg.systemKey.getD ""
    else
      match cfg.apiKeys.find? (fun k => k.id = kid) with
      | some keyConfig => keyConfig.key
      | none => cfg.systemKey.getD ""
  | none => cfg.systemKey.getD ""

/-- A partial update of a VideoJob, as passed to updateJob.  A field that is
none is absent from the update object; for the optional VideoJob fields a
present field carries an Option (some none encodes an explicit undefined,
as in the retry updates that clear the error field). -/
structure JobUpdate where
  id : Option String := none
  source : Option JobSource := none
  file : Option (Option String) := none
  url : Option (Option String) := none
  thumbnail : Option (Option String) := none
  name : Option String := none
  size : Option (Option Nat) := none
  status : Option JobStatus := none
  transcript : Option (Option String) := none
  error : Option (Option String) := none
  progress : Option Nat := none
deriving DecidableEq, Repr

/-- Spread merge of an update into a job, the JS expression
with spread syntax that copies job and then overrides with updates. -/
def applyUpdate (j : VideoJob) (u : JobUpdate) : VideoJob :=
  { id := u.id.getD j.id
    source := u.source.getD j.source
    file := u.file.getD j.file
    url := u.url.getD j.url
    thumbnail := u.thumbnail.getD j.thumbnail
    name := u.name.getD j.name
    size := u.size.getD j.size
    status := u.status.getD j.status
    transcript := u.transcript.getD j.transcript
    error := u.error.getD j.error
    progress := u.progress.getD j.progress }

/-- updateJob from App.tsx: map over the job list, merging the update into
the job whose id matches. -/
def updateJob (jobs : List VideoJob) (i : String) (u : JobUpdate) : List VideoJob :=
  jobs.map (fun job => if job.id = i then applyUpdate job u else job)

/-- Update setting only the status field. -/
def statusUpd (st : JobStatus) : JobUpdate := { status := some st }

/-- Update applied by processJob when the transcript succeeds. -/
def completedUpd (t : String) : JobUpdate :=
  { status := some JobStatus.COMPLETED, transcript := some (some t), progress := some 100 }

/-- Update applied by the catch branch of processJob. -/
def errorUpd (msg : String) : JobUpdate :=
  { status := some JobStatus.ERROR, error := some (some msg), progress := some 0 }

/-- Update applied by processJob when no Gemini key is configured
(note: it does not touch progress). -/
def missingKeyUpd : JobUpdate :=
  { status := some JobStatus.ERROR, error := some (some "Missing Gemini API Key") }

/-- Update applied by retryJob and retryAllFailed. -/
def retryUpd : JobUpdate :=
  { status := some JobStatus.IDLE, error := some none, progress := some 0 }

/-- Update applied when the background metadata fetch resolves. -/
def metaUpd (title thumb : String) : JobUpdate :=
  { name := some title, thumbnail := some (some thumb) }

/-- Predicate for the active statuses counted by the queue watcher. -/
def isActive (j : VideoJob) : Bool :=
  j.status = JobStatus.PROCESSING || j.status = JobStatus.UPLOADING

/-- Predicate for idle jobs. -/
def isIdle (j : VideoJob) : Bool := j.status = JobStatus.IDLE

/-- addToLibrary from App.tsx builds this record from a job snapshot and the
final text; id and createdAt come from the runtime (randomness and clock)
and are passed in. -/
def mkLibraryItem (lid createdAt : String) (job : VideoJob) (text : String) : LibraryItem :=
  { id := lid
    fileName := job.name
    fileSize := job.size.getD 0
    transcript := text
    createdAt := createdAt
    source := some job.source
    url := job.url }

/-- Phase of an in-flight processJob invocation: a youtube job is first
awaiting fetchYoutubeTranscript (status UPLOADING), then awaiting
refineTranscript (status PROCESSING); a file job is awaiting
transcribeVideo from the start (status PROCESSING). -/
inductive TaskPhase where
  | fetching
  | refining
deriving DecidableEq, Repr

/-- An in-flight asynchronous continuation of processJob.  The field
snapshot is the jobs array captured by the closure at invocation time
(the jobs binding of the render that created the callback), and captured
is the local const job found in that snapshot.  Both are read again at
completion time. -/
structure TranscribeTask where
  jobId : String
  snapshot : List VideoJob
  captured : VideoJob
  phase : TaskPhase
deriving DecidableEq, Repr

/-- Accumulator for the synchronous part of one scheduling pass. -/
structure SchedAcc where
  jobs : List VideoJob
  running : Bool
  tasks : List TranscribeTask
deriving Repr

/-- The synchronous prefix of processJob from App.tsx, run once per admitted
job id during a pass: look the job up in the closure snapshot, bail if it is
not idle, error out (and pause the queue) if no Gemini key resolves, and
otherwise flip the status away from IDLE and leave an in-flight task behind.
A youtube job is left UPLOADING awaiting the transcript fetch; a file job is
set UPLOADING and then PROCESSING before its first await; a job with an
inconsistent source/payload hits the throw in the else branch, which the
catch converts into an ERROR update. -/
def processJobStart (cfg : KeyConfig) (snapshot : List VideoJob) (jobId : String)
    (acc : SchedAcc) : SchedAcc :=
  match snapshot.find? (fun j => j.id = jobId) with
  | none => acc
  | some job =>
    if job.status ≠ JobStatus.IDLE then acc
    else if getActiveApiKey cfg = "" then
      { acc with jobs := updateJob acc.jobs jobId missingKeyUpd, running := false }
    else if job.source = JobSource.youtube ∧ job.url.isSome then
      { acc with
        jobs := updateJob acc.jobs jobId (statusUpd JobStatus.UPLOADING)
        tasks := acc.tasks ++ [⟨jobId, snapshot, job, TaskPhase.fetching⟩] }
    else if job.source = JobSource.file ∧ job.file.isSome then
      { acc with
        jobs := updateJob (updateJob acc.jobs jobId (statusUpd JobStatus.UPLOADING))
                  jobId (statusUpd JobStatus.PROCESSING)
        tasks := acc.tasks ++ [⟨jobId, snapshot, job, TaskPhase.refining⟩] }
    else
      { acc with
        jobs := updateJob (updateJob acc.jobs jobId (statusUpd JobStatus.UPLOADING))
                  jobId (errorUpd "Invalid Job Source") }

/-- AUTO_CONCURRENCY_LIMIT from App.tsx. -/
def AUTO_CONCURRENCY_LIMIT : Nat := 3

/-- The App state owned by the scheduler and library store. -/
structure AppState where
  jobs : List VideoJob
  library : List LibraryItem
  running : Bool
  autoConcurrency : Bool
  concurrencyLimit : Nat
  cfg : KeyConfig
  searchApiKey : String
  tasks : List TranscribeTask
deriving Repr

/-- Effective concurrency limit used by the queue watcher. -/
def effectiveLimit (s : AppState) : Nat :=
  if s.autoConcurrency then AUTO_CONCURRENCY_LIMIT else s.concurrencyLimit

/-- One evaluation of the main queue watcher effect from App.tsx: if the
queue is paused do nothing, otherwise compute the free slots from the live
active count and start the first so-many idle jobs in queue order.  Returns
the new state together with the ids that were admitted. -/
def schedulerPass (s : AppState) : AppState × List String :=
  if s.running = false then (s, [])
  else
    let activeJobsCount := s.jobs.countP (fun j => isActive j)
    let slotsAvailable := effectiveLimit s - activeJobsCount
    if 0 < slotsAvailable then
      let jobsToStart := (s.jobs.filter (fun j => isIdle j)).take slotsAvailable
      let acc := jobsToStart.foldl
        (fun a job => processJobStart s.cfg s.jobs job.id a)
        ⟨s.jobs, s.running, s.tasks⟩
      ({ s with jobs := acc.jobs, running := acc.running, tasks := acc.tasks },
        jobsToStart.map (fun j => j.id))
    else (s, [])

/-- retryJob from App.tsx lifted to the App state. -/
def retryJob (s : AppState) (i : String) : AppState :=
  { s with jobs := updateJob s.jobs i retryUpd, running := true }

/-- retryAllFailed from App.tsx lifted to the App state. -/
def retryAllFailed (s : AppState) : AppState :=
  { s with
    jobs := s.jobs.map (fun job =>
      if job.status = JobStatus.ERROR then applyUpdate job retryUpd else job)
    running := true }

/-- Completion of an in-flight task: the COMPLETED update is merged into the
live list, while the library item is built from the job found in the
closure snapshot (falling back to the captured job, exactly as the
JS disjunction with the local job constant does). -/
def completeTask (s : AppState) (t : TranscribeTask) (text lid createdAt : String) :
    AppState :=
  let updatedJob := (t.snapshot.find? (fun j => j.id = t.jobId)).getD t.captured
  { s with
    jobs := updateJob s.jobs t.jobId (completedUpd text)
    library := mkLibraryItem lid createdAt updatedJob text :: s.library
    tasks := s.tasks.erase t }

/-- Failure of an in-flight task (the catch branch of processJob). -/
def failTask (s : AppState) (t : TranscribeTask) (msg : String) : AppState :=
  { s with
    jobs := updateJob s.jobs t.jobId (errorUpd msg)
    tasks := s.tasks.erase t }

/-- A freshly enqueued file job, as built by handleFileChange. -/
def FreshFileJob (j : VideoJob) : Prop :=
  j.source = JobSource.file ∧ j.file.isSome ∧ j.url = none ∧ j.thumbnail = none ∧
  j.status = JobStatus.IDLE ∧ j.transcript = none ∧ j.error = none ∧ j.progress = 0

/-- A freshly enqueued youtube job, as built by handleYoutubeImport
(the name starts out as the raw url). -/
def FreshYoutubeJob (j : VideoJob) : Prop :=
  j.source = JobSource.youtube ∧ j.file = none ∧ (∃ u, j.url = some u ∧ j.name = u) ∧
  j.status = JobStatus.IDLE ∧ j.transcript = none ∧ j.error = none ∧ j.progress = 0

/-- Ids of a batch of new jobs are fresh: unique among themselves and
unused by current jobs and by in-flight tasks. -/
def FreshIds (s : AppState) (newJobs : List VideoJob) : Prop :=
  (newJobs.map (fun j => j.id)).Nodup ∧
  (∀ j ∈ newJobs, (∀ j2 ∈ s.jobs, j2.id ≠ j.id) ∧ ∀ t ∈ s.tasks, t.jobId ≠ j.id)

/-- One observable transition of the App: user events, one queue-watcher
evaluation, or the resumption of one in-flight asynchronous continuation. -/
inductive Step : AppState → AppState → Prop where
  | enqueueFiles (s : AppState) (newJobs : List VideoJob)
      (hfresh : FreshIds s newJobs) (hshape : ∀ j ∈ newJobs, FreshFileJob j) :
      Step s { s with jobs := s.jobs ++ newJobs }
  | enqueueYoutube (s : AppState) (newJobs : List VideoJob)
      (hfresh : FreshIds s newJobs) (hshape : ∀ j ∈ newJobs, FreshYoutubeJob j) :
      Step s { s with jobs := s.jobs ++ newJobs }
  | metadataArrives (s : AppState) (i title thumb : String) :
      Step s { s with jobs := updateJob s.jobs i (metaUpd title thumb) }
  | queuePass (s : AppState) :
      Step s (schedulerPass s).1
  | advanceTask (s : AppState) (t : TranscribeTask)
      (hmem : t ∈ s.tasks) (hph : t.phase = TaskPhase.fetching) :
      Step s { s with
        jobs := updateJob s.jobs t.jobId (statusUpd JobStatus.PROCESSING)
        tasks := s.tasks.map (fun t2 =>
          if t2 = t then { t with phase := TaskPhase.refining } else t2) }
  | taskCompletes (s : AppState) (t : TranscribeTask) (text lid createdAt : String)
      (hmem : t ∈ s.tasks) (hph : t.phase = TaskPhase.refining) :
      Step s (completeTask s t text lid createdAt)
  | taskFails (s : AppState) (t : TranscribeTask) (msg : String)
      (hmem : t ∈ s.tasks) :
      Step s (failTask s t msg)
  | retry (s : AppState) (i : String)
      (herr : ∀ j ∈ s.jobs, j.id = i → j.status = JobStatus.ERROR) :
      Step s (retryJob s i)
  | retryAll (s : AppState) :
      Step s (retryAllFailed s)
  | removeJob (s : AppState) (i : String) :
      Step s { s with jobs := s.jobs.filter (fun job => job.id ≠ i) }
  | removeLibraryItem (s : AppState) (i : String) :
      Step s { s with library := s.library.filter (fun item => item.id ≠ i) }
  | clearLibrary (s : AppState) :
      Step s { s with library := [] }
  | setRunning (s : AppState) (b : Bool) :
      Step s { s with running := b }
  | setConcurrency (s : AppState) (auto : Bool) (limit : Nat) :
      Step s { s with autoConcurrency := auto, concurrencyLimit := limit }
  | setConfig (s : AppState) (cfg : KeyConfig) (sk : String) :
      Step s { s with cfg := cfg, searchApiKey := sk }

/-- The initial App state: empty queue and whatever persisted credentials
and settings were loaded. -/
def initState (cfg : KeyConfig) (sk : String) (library : List LibraryItem)
    (auto : Bool) (limit : Nat) : AppState :=
  { jobs := [], library := library, running := true, autoConcurrency := auto,
    concurrencyLimit := limit, cfg := cfg, searchApiKey := sk, tasks := [] }

/-- Reachability from some initial state. -/
def Reachable (s : AppState) : Prop :=
  ∃ cfg sk library auto limit,
    Relation.ReflTransGen Step (initState cfg sk library auto limit) s

/-! Video id extraction (youtubeService).  The JS regex is
caret dot-star, then the alternation of the eight shape markers, then the
capture of non-delimiter characters, then dot-star.  The leading greedy
dot-star means the match uses the last position at which a marker matches
(the tail after a marker always matches), and the unflagged dot does not
cross a newline.  The eight alternatives start with pairwise distinct
literal first characters, so at a given position at most one matches. -/

/-- Word character class of the regex escape in the u-slash shape. -/
def isWordChar (c : Char) : Bool :=
  (('a' ≤ c ∧ c ≤ 'z') ∨ ('A' ≤ c ∧ c ≤ 'Z') ∨ ('0' ≤ c ∧ c ≤ '9') ∨ c = '_')

/-- Does the youtu-dot-be marker match at the head (the dot is a regex
wildcard that does not match a newline)? -/
def matchYoutuBe : List Char → Bool
  | 'y' :: 'o' :: 'u' :: 't' :: 'u' :: c :: 'b' :: 'e' :: '/' :: _ => c ≠ '\n'
  | _ => false

/-- Does the u-slash-wordchar-slash marker match at the head? -/
def matchUserShape : List Char → Bool
  | '/' :: 'u' :: '/' :: c :: '/' :: _ => isWordChar c
  | _ => false

/-- Length of the shape marker matching at the head of the list, if any.
The alternatives are those of the regex in extractVideoId, in source
order; their first characters are pairwise distinct. -/
def markerAt (s : List Char) : Option Nat :=
  if matchYoutuBe s then some 9
  else if ['v', '/'].isPrefixOf s then some 2
  else if matchUserShape s then some 5
  else if ['e', 'm', 'b', 'e', 'd', '/'].isPrefixOf s then some 6
  else if ['w', 'a', 't', 'c', 'h', '?', 'v', '='].isPrefixOf s then some 8
  else if ['s', 'h', 'o', 'r', 't', 's', '/'].isPrefixOf s then some 7
  else if ['&', 'v', '='].isPrefixOf s then some 3
  else none

/-- Scan for the last position at which a marker matches, never moving the
match start past a newline (the leading greedy dot-star of the regex cannot
cross one).  Returns the winning position together with the marker
length. -/
def lastMarkerScan : List Char → Nat → Option (Nat × Nat)
  | [], _ => none
  | c :: rest, pos =>
    let here := (markerAt (c :: rest)).map (fun k => (pos, k))
    if c = '\n' then here
    else
      match lastMarkerScan rest (pos + 1) with
      | some r => some r
      | none => here

/-- Capture class of the regex: everything up to a hash, ampersand or
question mark. -/
def notDelim (c : Char) : Bool := c ≠ '#' ∧ c ≠ '&' ∧ c ≠ '?'

/-- extractVideoId from youtubeService: apply the fixed pattern and return
the captured identifier exactly when it has 11 characters. -/
def extractVideoId (url : String) : Option String :=
  let s := url.toList
  match lastMarkerScan s 0 with
  | none => none
  | some (p, k) =>
    let captured := (s.drop (p + k)).takeWhile notDelim
    if captured.length = 11 then some (String.mk captured) else none

/-- Substring test on character lists (the JS includes method). -/
def isSubstring : List Char → List Char → Bool
  | n, [] => n.isEmpty
  | n, c :: rest => n.isPrefixOf (c :: rest) || isSubstring n rest

/-- A caption track as consumed by selectBestTrack; all fields are
optional, as on the untyped JSON objects of both strategies. -/
structure CaptionTrack where
  languageCode : Option String
  language : Option String
  kind : Option String
  label : Option String
deriving DecidableEq, Repr

/-- Lower-case a string like the JS toLowerCase call (ASCII suffices for
the label test). -/
def lowerStr (s : String) : List Char := s.toList.map Char.toLower

/-- Auto-generated detection used by selectBestTrack: an explicit asr kind,
or a label whose lower-casing contains the letters of auto. -/
def isAutoTrack (t : CaptionTrack) : Bool :=
  t.kind = some "asr" ||
    (match t.label with
     | some l => isSubstring ['a', 'u', 't', 'o'] (lowerStr l)
     | none => false)

/-- English detection used by selectBestTrack (either field spelling). -/
def isEnTrack (t : CaptionTrack) : Bool :=
  t.languageCode = some "en" || t.language = some "en"

/-- selectBestTrack from youtubeService (shared by the Invidious and
scraping strategies): manual English, else manual any, else English,
else the first track; none for an empty list. -/
def selectBestTrack (captions : List CaptionTrack) : Option CaptionTrack :=
  if captions.isEmpty then none
  else
    match captions.find? (fun t => isEnTrack t && !isAutoTrack t) with
    | some t => some t
    | none =>
      match captions.find? (fun t => !isAutoTrack t) with
      | some t => some t
      | none =>
        match captions.find? (fun t => isEnTrack t) with
        | some t => some t
        | none => captions.head?

/-- Whitespace class of the regex escape used in the collapse steps. -/
def isWs (c : Char) : Bool := c = ' ' ∨ c = '\t' ∨ c = '\n' ∨ c = '\r'

/-- Collapse runs of whitespace to single spaces (the global replace of the
whitespace-plus regex by a space). -/
def collapseWs : List Char → List Char
  | [] => []
  | c :: rest =>
    if isWs c then
      ' ' :: collapseWs (rest.dropWhile isWs)
    else c :: collapseWs rest
termination_by s => s.length
decreasing_by
  · exact Nat.lt_succ_of_le ((List.dropWhile_suffix isWs).sublist.length_le)
  · exact Nat.lt_succ_self _

/-- Trim plus collapse as applied to the joined transcript fragments. -/
def collapseAndTrim (s : String) : String :=
  String.mk (((collapseWs s.toList).dropWhile isWs).reverse.dropWhile isWs).reverse

/-- The response of the commercial transcript-search backend, as far as
fetchViaSearchApi inspects it: HTTP ok flag and status, the error body
text, and the parsed transcripts array (none when the field is missing or
not an array; each element contributes its text fragment). -/
structure SearchApiResponse where
  ok : Bool
  status : Nat
  body : String
  transcripts : Option (List String)
deriving Repr

/-- fetchViaSearchApi from youtubeService: fail without a key; map 401/403
to the credential failure message, other non-ok statuses to a generic
message; require a non-empty transcripts array; and join the fragments
with single spaces, collapsing whitespace. -/
def fetchViaSearchApi (resp : SearchApiResponse) (apiKey : String) :
    Except String String :=
  if apiKey = "" then Except.error "No SearchAPI key configured"
  else if resp.ok = false then
    if resp.status = 401 ∨ resp.status = 403 then
      Except.error ("SearchAPI Key Invalid or Quota Exceeded: " ++ toString resp.status)
    else
      Except.error ("SearchAPI Error: " ++ toString resp.status ++ " - " ++ resp.body)
  else
    match resp.transcripts with
    | none => Except.error "SearchAPI returned no transcripts."
    | some [] => Except.error "SearchAPI returned no transcripts."
    | some segs => Except.ok (collapseAndTrim (String.intercalate " " segs))

/-- The remote world consulted by one fetchYoutubeTranscript call: the
premium backend response and the outcomes of the Invidious and scraping
strategies (each already an aggregate over its instance or proxy list). -/
structure TranscriptEnv where
  searchResp : SearchApiResponse
  invidious : Except String String
  scraping : Except String String

/-- fetchYoutubeTranscript from youtubeService: fail fast when no video id
extracts; try the premium strategy only when a key is present, swallowing
its failure; then Invidious, swallowing failure; then scraping, whose
failure becomes the aggregate error carrying the last message. -/
def fetchYoutubeTranscript (env : TranscriptEnv) (url : String)
    (searchApiKey : String) : Except String String :=
  match extractVideoId url with
  | none => Except.error "Invalid Video ID"
  | some _ =>
    let premium : Option String :=
      if searchApiKey ≠ "" then
        match fetchViaSearchApi env.searchResp searchApiKey with
        | Except.ok t => some t
        | Except.error _ => none
      else none
    match premium with
    | some t => Except.ok t
    | none =>
      match env.invidious with
      | Except.ok t => Except.ok t
      | Except.error _ =>
        match env.scraping with
        | Except.ok t => Except.ok t
        | Except.error e =>
          Except.error
            ("Failed to fetch transcript. The video might not have captions enabled. Details: "
              ++ e)

/-- The raw-text chunk submitted to the refinement backend: the substring
call keeps at most the first 30000 characters. -/
def refineChunk (rawText : String) : String := String.mk (rawText.toList.take 30000)

/-- The full prompt text built by refineTranscript around the chunk. -/
def refinePrompt (rawText : String) : String :=
  "The following text is a raw, unformatted transcript from a video (likely YouTube captions). It lacks punctuation, proper capitalization, and paragraph breaks. Please rewrite it to be readable, adding punctuation, capitalization, and paragraphs where appropriate. Do NOT summarize. Keep the content verbatim as much as possible, just fix the grammar and formatting. Raw Text: \x22"
    ++ refineChunk rawText ++ "\x22"

/-- refineTranscript from geminiService: the backend oracle maps the
submitted prompt to either a transport failure or a response whose text
field may be missing.  The try body throws without a key and otherwise
returns the response text, substituting the raw text for a missing or
empty one (the JS falsy disjunction); the catch returns the raw text for
any failure. -/
def refineTranscript (backend : String → Except String (Option String))
    (rawText apiKey : String) : String :=
  let attempt : Except String String :=
    if apiKey = "" then Except.error "No API Key"
    else
      match backend (refinePrompt rawText) with
      | Except.error e => Except.error e
      | Except.ok none => Except.ok rawText
      | Except.ok (some t) => Except.ok (if t = "" then rawText else t)
  match attempt with
  | Except.ok t => t
  | Except.error _ => rawText

/-! Basic lemmas about updates. -/

theorem applyUpdate_statusUpd (j : VideoJob) (st : JobStatus) :
    applyUpdate j (statusUpd st) = { j with status := st } := rfl

theorem applyUpdate_statusUpd_statusUpd (j : VideoJob) (s1 s2 : JobStatus) :
    applyUpdate (applyUpdate j (statusUpd s1)) (statusUpd s2) = { j with status := s2 } := rfl

theorem applyUpdate_statusUpd_errorUpd (j : VideoJob) (st : JobStatus) (m : String) :
    applyUpdate (applyUpdate j (statusUpd st)) (errorUpd m) = applyUpdate j (errorUpd m) := rfl

theorem updateJob_length (jobs : List VideoJob) (i : String) (u : JobUpdate) :
    (updateJob jobs i u).length = jobs.length := by
  simp [updateJob]

theorem updateJob_map_id (jobs : List VideoJob) (i : String) (u : JobUpdate)
    (hu : u.id = none) :
    (updateJob jobs i u).map (fun j => j.id) = jobs.map (fun j => j.id) := by
  simp only [updateJob, List.map_map]
  refine List.map_congr_left (fun j _ => ?_)
  by_cases h : j.id = i <;> simp [h, applyUpdate, hu]

/-- C10: updateJob preserves the length and order of the job list, leaves
every job with a different id unchanged, and merges the update into the
matching job: each field named in the update is replaced and every field
absent from the update is preserved (in particular id, source and the
file/url payload when the update does not name them). -/
theorem updateJob_frame (jobs : List VideoJob) (i : String) (u : JobUpdate) :
    (updateJob jobs i u).length = jobs.length ∧
    (∀ k (hk : k < jobs.length) (hk2 : k < (updateJob jobs i u).length),
      ((jobs.get ⟨k, hk⟩).id ≠ i →
        (updateJob jobs i u).get ⟨k, hk2⟩ = jobs.get ⟨k, hk⟩) ∧
      ((jobs.get ⟨k, hk⟩).id = i →
        (updateJob jobs i u).get ⟨k, hk2⟩ = applyUpdate (jobs.get ⟨k, hk⟩) u)) ∧
    (∀ j : VideoJob,
      (u.id = none → (applyUpdate j u).id = j.id) ∧
      (u.source = none → (applyUpdate j u).source = j.source) ∧
      (u.file = none → (applyUpdate j u).file = j.file) ∧
      (u.url = none → (applyUpdate j u).url = j.url) ∧
      (u.thumbnail = none → (applyUpdate j u).thumbnail = j.thumbnail) ∧
      (u.name = none → (applyUpdate j u).name = j.name) ∧
      (u.size = none → (applyUpdate j u).size = j.size) ∧
      (u.status = none → (applyUpdate j u).status = j.status) ∧
      (u.transcript = none → (applyUpdate j u).transcript = j.transcript) ∧
      (u.error = none → (applyUpdate j u).error = j.error) ∧
      (u.progress = none → (applyUpdate j u).progress = j.progress)) ∧
    (∀ j : VideoJob,
      (∀ v, u.id = some v → (applyUpdate j u).id = v) ∧
      (∀ v, u.source = some v → (applyUpdate j u).source = v) ∧
      (∀ v, u.file = some v → (applyUpdate j u).file = v) ∧
      (∀ v, u.url = some v → (applyUpdate j u).url = v) ∧
      (∀ v, u.thumbnail = some v → (applyUpdate j u).thumbnail = v) ∧
      (∀ v, u.name = some v → (applyUpdate j u).name = v) ∧
      (∀ v, u.size = some v → (applyUpdate j u).size = v) ∧
      (∀ v, u.status = some v → (applyUpdate j u).status = v) ∧
      (∀ v, u.transcript = some v → (applyUpdate j u).transcript = v) ∧
      (∀ v, u.error = some v → (applyUpdate j u).error = v) ∧
      (∀ v, u.progress = some v → (applyUpdate j u).progress = v)) := by
  refine ⟨updateJob_length jobs i u, ?_, ?_, ?_⟩
  · intro k hk hk2
    constructor
    · intro hne
      have hne2 : ¬jobs[k].id = i := by simpa using hne
      simp only [updateJob, List.get_eq_getElem, List.getElem_map]
      rw [if_neg hne2]
    · intro heq
      have heq2 : jobs[k].id = i := by simpa using heq
      simp only [updateJob, List.get_eq_getElem, List.getElem_map]
      rw [if_pos heq2]
  · intro j
    refine ⟨?_, ?_, ?_, ?_, ?_, ?_, ?_, ?_, ?_, ?_, ?_⟩ <;>
      (intro h; simp [applyUpdate, h])
  · intro j
    refine ⟨?_, ?_, ?_, ?_, ?_, ?_, ?_, ?_, ?_, ?_, ?_⟩ <;>
      (intro v h; simp [applyUpdate, h])

/-- Sample idle file job used by concrete instantiations. -/
def jobA : VideoJob :=
  { id := "a", source := JobSource.file, file := some "fileA", url := none,
    thumbnail := none, name := "a.mp4", size := some 100,
    status := JobStatus.IDLE, transcript := none, error := none, progress := 0 }

/-- Sample idle file job used by concrete instantiations. -/
def jobB : VideoJob :=
  { id := "b", source := JobSource.file, file := some "fileB", url := none,
    thumbnail := none, name := "b.mp4", size := some 200,
    status := JobStatus.IDLE, transcript := none, error := none, progress := 0 }

/-- Sample idle file job used by concrete instantiations. -/
def jobC : VideoJob :=
  { id := "c", source := JobSource.file, file := some "fileC", url := none,
    thumbnail := none, name := "c.mp4", size := some 300,
    status := JobStatus.IDLE, transcript := none, error := none, progress := 0 }

/-- Sample failed job used by concrete instantiations. -/
def jobErr : VideoJob :=
  { id := "e", source := JobSource.file, file := some "fileE", url := none,
    thumbnail := none, name := "e.mp4", size := some 400,
    status := JobStatus.ERROR, transcript := none, error := some "boom", progress := 0 }

/-- Witness for updateJob_frame at a concrete list and update. -/
theorem updateJob_frame_witness :
    (updateJob [jobA, jobErr] "e" retryUpd).length = 2 ∧
    (updateJob [jobA, jobErr] "e" retryUpd).get ⟨0, by decide⟩ = jobA ∧
    (applyUpdate jobErr retryUpd).transcript = jobErr.transcript ∧
    (applyUpdate jobErr retryUpd).status = JobStatus.IDLE := by
  refine ⟨(updateJob_frame [jobA, jobErr] "e" retryUpd).1, ?_, ?_, ?_⟩
  · exact ((updateJob_frame [jobA, jobErr] "e" retryUpd).2.1 0 (by decide)
      (by decide)).1 (by decide)
  · exact ((updateJob_frame [jobA, jobErr] "e" retryUpd).2.2.1 jobErr).2.2.2.2.2.2.2.2.1
      (by decide)
  · exact ((updateJob_frame [jobA, jobErr] "e" retryUpd).2.2.2 jobErr).2.2.2.2.2.2.2.1
      JobStatus.IDLE (by decide)

/-- C5: retrying one job sets its status to Idle, clears error, zeroes
progress, resumes the queue and preserves its transcript field and all
other jobs; retryAllFailed does the same for every Error job and leaves
every job not in Error completely untouched. -/
theorem retry_spec (s : AppState) (i : String) :
    (retryJob s i).running = true ∧
    (retryAllFailed s).running = true ∧
    (retryJob s i).jobs.length = s.jobs.length ∧
    (retryAllFailed s).jobs.length = s.jobs.length ∧
    (∀ k (hk : k < s.jobs.length) (hk2 : k < (retryJob s i).jobs.length),
      ((s.jobs.get ⟨k, hk⟩).id ≠ i →
        (retryJob s i).jobs.get ⟨k, hk2⟩ = s.jobs.get ⟨k, hk⟩) ∧
      ((s.jobs.get ⟨k, hk⟩).id = i →
        (retryJob s i).jobs.get ⟨k, hk2⟩ =
          { s.jobs.get ⟨k, hk⟩ with
            status := JobStatus.IDLE, error := none, progress := 0 })) ∧
    (∀ k (hk : k < s.jobs.length) (hk2 : k < (retryAllFailed s).jobs.length),
      ((s.jobs.get ⟨k, hk⟩).status ≠ JobStatus.ERROR →
        (retryAllFailed s).jobs.get ⟨k, hk2⟩ = s.jobs.get ⟨k, hk⟩) ∧
      ((s.jobs.get ⟨k, hk⟩).status = JobStatus.ERROR →
        (retryAllFailed s).jobs.get ⟨k, hk2⟩ =
          { s.jobs.get ⟨k, hk⟩ with
            status := JobStatus.IDLE, error := none, progress := 0 })) ∧
    (∀ j : VideoJob, (applyUpdate j retryUpd).transcript = j.transcript) := by
  refine ⟨rfl, rfl, by simp [retryJob, updateJob], by simp [retryAllFailed], ?_, ?_, ?_⟩
  · intro k hk hk2
    constructor
    · intro hne
      have hne2 : ¬s.jobs[k].id = i := by simpa using hne
      simp only [retryJob, updateJob, List.get_eq_getElem, List.getElem_map]
      rw [if_neg hne2]
    · intro heq
      have heq2 : s.jobs[k].id = i := by simpa using heq
      simp only [retryJob, updateJob, List.get_eq_getElem, List.getElem_map]
      rw [if_pos heq2]
      rfl
  · intro k hk hk2
    constructor
    · intro hne
      have hne2 : ¬s.jobs[k].status = JobStatus.ERROR := by simpa using hne
      simp only [retryAllFailed, List.get_eq_getElem, List.getElem_map]
      rw [if_neg hne2]
    · intro heq
      have heq2 : s.jobs[k].status = JobStatus.ERROR := by simpa using heq
      simp only [retryAllFailed, List.get_eq_getElem, List.getElem_map]
      rw [if_pos heq2]
      rfl
  · intro j
    rfl

/-- Sample state with one completed-with-transcript error witness setup:
a failed job next to an untouched idle job. -/
def sampleRetryState : AppState :=
  { jobs := [jobA, jobErr], library := [], running := false,
    autoConcurrency := true, concurrencyLimit := 3,
    cfg := { apiKeys := [], activeKeyId := none, systemKey := some "sys" },
    searchApiKey := "", tasks := [] }

/-- Witness for retry_spec at a concrete paused state with one failed job. -/
theorem retry_spec_witness :
    (retryJob sampleRetryState "e").running = true ∧
    (retryJob sampleRetryState "e").jobs.get ⟨1, by decide⟩ =
      { jobErr with status := JobStatus.IDLE, error := none, progress := 0 } ∧
    (retryAllFailed sampleRetryState).jobs.get ⟨0, by decide⟩ = jobA := by
  refine ⟨(retry_spec sampleRetryState "e").1, ?_, ?_⟩
  · exact ((retry_spec sampleRetryState "e").2.2.2.2.1 1 (by decide) (by decide)).2
      (by decide)
  · exact ((retry_spec sampleRetryState "e").2.2.2.2.2.1 0 (by decide) (by decide)).1
      (by decide)

/-- C3: refineTranscript is total (it returns a plain string, never an
exception); on any backend failure, on a missing response text and on an
empty response text it returns the raw input unchanged (also when the key
is missing); and the chunk of raw text submitted inside the prompt is the
prefix of the input of at most 30000 characters. -/
theorem refineTranscript_spec (backend : String → Except String (Option String))
    (rawText apiKey : String) :
    ((∃ e, backend (refinePrompt rawText) = Except.error e) →
      refineTranscript backend rawText apiKey = rawText) ∧
    (backend (refinePrompt rawText) = Except.ok none →
      refineTranscript backend rawText apiKey = rawText) ∧
    (backend (refinePrompt rawText) = Except.ok (some "") →
      refineTranscript backend rawText apiKey = rawText) ∧
    (∀ t, t ≠ "" → apiKey ≠ "" → backend (refinePrompt rawText) = Except.ok (some t) →
      refineTranscript backend rawText apiKey = t) ∧
    refineTranscript backend rawText "" = rawText ∧
    (refineChunk rawText).length ≤ 30000 ∧
    (refineChunk rawText).toList <+: rawText.toList := by
  refine ⟨?_, ?_, ?_, ?_, ?_, ?_, ?_⟩
  · rintro ⟨e, he⟩
    by_cases hk : apiKey = "" <;> simp [refineTranscript, hk, he]
  · intro he
    by_cases hk : apiKey = "" <;> simp [refineTranscript, hk, he]
  · intro he
    by_cases hk : apiKey = "" <;> simp [refineTranscript, hk, he]
  · intro t ht hk he
    simp [refineTranscript, hk, he, ht]
  · simp [refineTranscript]
  · have h : (refineChunk rawText).length = (rawText.toList.take 30000).length := rfl
    rw [h]
    exact List.length_take_le _ _
  · have h : (refineChunk rawText).toList = rawText.toList.take 30000 := rfl
    rw [h]
    exact List.take_prefix _ _

/-- Witness for refineTranscript_spec: a failing backend leaves a concrete
raw text unchanged, and a successful backend replaces it. -/
theorem refineTranscript_spec_witness :
    refineTranscript (fun _ => Except.error "http 500") "raw words" "gk" = "raw words" ∧
    refineTranscript (fun _ => Except.ok (some "Polished.")) "raw words" "gk" =
      "Polished." ∧
    (refineChunk "raw words").length ≤ 30000 := by
  refine ⟨?_, ?_, ?_⟩
  · exact (refineTranscript_spec (fun _ => Except.error "http 500") "raw words" "gk").1
      ⟨"http 500", rfl⟩
  · exact (refineTranscript_spec (fun _ => Except.ok (some "Polished.")) "raw words"
      "gk").2.2.2.1 "Polished." (by decide) (by decide) rfl
  · exact (refineTranscript_spec (fun _ => Except.ok none) "raw words" "gk").2.2.2.2.2.1

/-- C2: fetchYoutubeTranscript fails fast on an unextractable id; otherwise
it consults the premium strategy only when a key is present (with no key
the premium response is never inspected), returns the first successful
strategy in premium-Invidious-scraping order, hides earlier failures
whenever a later strategy succeeds, and only when every attempted strategy
failed returns the aggregate error carrying the scraping error message. -/
theorem fetchYoutubeTranscript_spec (env : TranscriptEnv) (url key : String) :
    (extractVideoId url = none →
      fetchYoutubeTranscript env url key = Except.error "Invalid Video ID") ∧
    (extractVideoId url ≠ none →
      ((key = "" → ∀ r, fetchYoutubeTranscript ⟨r, env.invidious, env.scraping⟩ url key =
          fetchYoutubeTranscript env url key) ∧
       (∀ t, key ≠ "" → fetchViaSearchApi env.searchResp key = Except.ok t →
          fetchYoutubeTranscript env url key = Except.ok t) ∧
       (∀ t, (key = "" ∨ ∃ e, fetchViaSearchApi env.searchResp key = Except.error e) →
          env.invidious = Except.ok t →
          fetchYoutubeTranscript env url key = Except.ok t) ∧
       (∀ t e2, (key = "" ∨ ∃ e, fetchViaSearchApi env.searchResp key = Except.error e) →
          env.invidious = Except.error e2 →
          env.scraping = Except.ok t →
          fetchYoutubeTranscript env url key = Except.ok t) ∧
       (∀ e e2, (key = "" ∨ ∃ e3, fetchViaSearchApi env.searchResp key = Except.error e3) →
          env.invidious = Except.error e2 →
          env.scraping = Except.error e →
          fetchYoutubeTranscript env url key =
            Except.error
              ("Failed to fetch transcript. The video might not have captions enabled. Details: "
                ++ e)))) := by
  constructor
  · intro hid
    simp [fetchYoutubeTranscript, hid]
  · intro hid
    obtain ⟨v, hv⟩ := Option.ne_none_iff_exists.1 hid
    refine ⟨?_, ?_, ?_, ?_, ?_⟩
    · intro hk r
      simp [fetchYoutubeTranscript, ← hv, hk]
    · intro t hk hok
      simp [fetchYoutubeTranscript, ← hv, hk, hok]
    · rintro t (hk | ⟨e, he⟩) hinv
      · simp [fetchYoutubeTranscript, ← hv, hk, hinv]
      · by_cases hk : key = "" <;> simp [fetchYoutubeTranscript, ← hv, hk, he, hinv]
    · rintro t e2 (hk | ⟨e, he⟩) hinv hscr
      · simp [fetchYoutubeTranscript, ← hv, hk, hinv, hscr]
      · by_cases hk : key = "" <;>
          simp [fetchYoutubeTranscript, ← hv, hk, he, hinv, hscr]
    · rintro e e2 (hk | ⟨e3, he⟩) hinv hscr
      · simp [fetchYoutubeTranscript, ← hv, hk, hinv, hscr]
      · by_cases hk : key = "" <;>
          simp [fetchYoutubeTranscript, ← hv, hk, he, hinv, hscr]

/-- Witness for fetchYoutubeTranscript_spec: with a premium credential
whose backend rejects it with a 401 and a failing Invidious pass, the
scraping result is returned; and with everything failing, the aggregate
error carries the last message. -/
theorem fetchYoutubeTranscript_spec_witness :
    fetchYoutubeTranscript
      ⟨⟨false, 401, "denied", none⟩, Except.error "all instances failed",
        Except.ok "scraped words"⟩
      "https://youtu.be/dQw4w9WgXcQ" "sk" = Except.ok "scraped words" ∧
    fetchYoutubeTranscript
      ⟨⟨false, 401, "denied", none⟩, Except.error "all instances failed",
        Except.error "Blocked by Captcha"⟩
      "https://youtu.be/dQw4w9WgXcQ" "sk" =
      Except.error
        "Failed to fetch transcript. The video might not have captions enabled. Details: Blocked by Captcha" := by
  constructor
  · exact ((fetchYoutubeTranscript_spec
      ⟨⟨false, 401, "denied", none⟩, Except.error "all instances failed",
        Except.ok "scraped words"⟩
      "https://youtu.be/dQw4w9WgXcQ" "sk").2 (by decide)).2.2.2.1
      "scraped words" "all instances failed"
      (Or.inr ⟨"SearchAPI Key Invalid or Quota Exceeded: 401", rfl⟩) rfl rfl
  · exact ((fetchYoutubeTranscript_spec
      ⟨⟨false, 401, "denied", none⟩, Except.error "all instances failed",
        Except.error "Blocked by Captcha"⟩
      "https://youtu.be/dQw4w9WgXcQ" "sk").2 (by decide)).2.2.2.2
      "Blocked by Captcha" "all instances failed"
      (Or.inr ⟨"SearchAPI Key Invalid or Quota Exceeded: 401", rfl⟩) rfl rfl

/-- C9: for a non-empty track list the shared selection returns, in
priority order, a manually authored English track, else a manually
authored track of any language, else an (automatically generated) English
track, else the first track; and a track counts as auto-generated exactly
when it carries the asr kind marker or its label contains the letters of
auto case-insensitively. -/
theorem selectBestTrack_spec (captions : List CaptionTrack) (hne : captions ≠ []) :
    ((∃ t ∈ captions, isEnTrack t = true ∧ isAutoTrack t = false) →
      ∃ r ∈ captions, selectBestTrack captions = some r ∧
        isEnTrack r = true ∧ isAutoTrack r = false) ∧
    ((∀ t ∈ captions, ¬(isEnTrack t = true ∧ isAutoTrack t = false)) →
      (∃ t ∈ captions, isAutoTrack t = false) →
      ∃ r ∈ captions, selectBestTrack captions = some r ∧ isAutoTrack r = false) ∧
    ((∀ t ∈ captions, isAutoTrack t = true) →
      (∃ t ∈ captions, isEnTrack t = true) →
      ∃ r ∈ captions, selectBestTrack captions = some r ∧
        isEnTrack r = true ∧ isAutoTrack r = true) ∧
    ((∀ t ∈ captions, isAutoTrack t = true ∧ isEnTrack t = false) →
      selectBestTrack captions = captions.head?) ∧
    (∀ t : CaptionTrack, isAutoTrack t = true ↔
      (t.kind = some "asr" ∨
        ∃ l, t.label = some l ∧ isSubstring ['a', 'u', 't', 'o'] (lowerStr l) = true)) := by
  have hempty : captions.isEmpty = false := by
    cases captions with
    | nil => exact absurd rfl hne
    | cons a l => rfl
  refine ⟨?_, ?_, ?_, ?_, ?_⟩
  · rintro ⟨t, ht, hen, hauto⟩
    have hfind : ∃ r, captions.find? (fun t => isEnTrack t && !isAutoTrack t) = some r := by
      rw [← Option.isSome_iff_exists, List.find?_isSome]
      exact ⟨t, ht, by simp [hen, hauto]⟩
    obtain ⟨r, hr⟩ := hfind
    have hr1 := List.find?_some hr
    have hr2 := List.mem_of_find?_eq_some hr
    simp only [Bool.and_eq_true, Bool.not_eq_true'] at hr1
    exact ⟨r, hr2, by simp [selectBestTrack, hempty, hr], hr1.1, hr1.2⟩
  · intro hnone hexists
    have h1 : captions.find? (fun t => isEnTrack t && !isAutoTrack t) = none := by
      rw [List.find?_eq_none]
      intro t ht
      simp only [Bool.and_eq_true, Bool.not_eq_true']
      exact fun hc => hnone t ht ⟨hc.1, hc.2⟩
    obtain ⟨t, ht, hauto⟩ := hexists
    have hfind : ∃ r, captions.find? (fun t => !isAutoTrack t) = some r := by
      rw [← Option.isSome_iff_exists, List.find?_isSome]
      exact ⟨t, ht, by simp [hauto]⟩
    obtain ⟨r, hr⟩ := hfind
    have hr1 := List.find?_some hr
    have hr2 := List.mem_of_find?_eq_some hr
    simp only [Bool.not_eq_true'] at hr1
    exact ⟨r, hr2, by simp [selectBestTrack, hempty, h1, hr], hr1⟩
  · intro hall hexists
    have h1 : captions.find? (fun t => isEnTrack t && !isAutoTrack t) = none := by
      rw [List.find?_eq_none]
      intro t ht
      simp [hall t ht]
    have h2 : captions.find? (fun t => !isAutoTrack t) = none := by
      rw [List.find?_eq_none]
      intro t ht
      simp [hall t ht]
    obtain ⟨t, ht, hen⟩ := hexists
    have hfind : ∃ r, captions.find? (fun t => isEnTrack t) = some r := by
      rw [← Option.isSome_iff_exists, List.find?_isSome]
      exact ⟨t, ht, hen⟩
    obtain ⟨r, hr⟩ := hfind
    have hr1 := List.find?_some hr
    have hr2 := List.mem_of_find?_eq_some hr
    exact ⟨r, hr2, by simp [selectBestTrack, hempty, h1, h2, hr], hr1, hall r hr2⟩
  · intro hall
    have h1 : captions.find? (fun t => isEnTrack t && !isAutoTrack t) = none := by
      rw [List.find?_eq_none]
      intro t ht
      simp [(hall t ht).1]
    have h2 : captions.find? (fun t => !isAutoTrack t) = none := by
      rw [List.find?_eq_none]
      intro t ht
      simp [(hall t ht).1]
    have h3 : captions.find? (fun t => isEnTrack t) = none := by
      rw [List.find?_eq_none]
      intro t ht
      simp [(hall t ht).2]
    simp [selectBestTrack, hempty, h1, h2, h3]
  · intro t
    constructor
    · intro h
      simp only [isAutoTrack, Bool.or_eq_true, decide_eq_true_eq] at h
      rcases h with h1 | h2
      · exact Or.inl h1
      · right
        cases hl : t.label with
        | none =>
          rw [hl] at h2
          simp at h2
        | some l =>
          rw [hl] at h2
          exact ⟨l, rfl, h2⟩
    · rintro (h | ⟨l, hl, hsub⟩)
      · simp [isAutoTrack, h]
      · simp [isAutoTrack, hl, hsub]

/-- Witness for selectBestTrack_spec: among an auto English track and a
manual Japanese track the manual one wins. -/
theorem selectBestTrack_spec_witness :
    (∃ r ∈ [(⟨some "en", none, some "asr", some "English (auto-generated)"⟩ : CaptionTrack),
            ⟨some "ja", none, none, some "Japanese"⟩],
      selectBestTrack [⟨some "en", none, some "asr", some "English (auto-generated)"⟩,
            ⟨some "ja", none, none, some "Japanese"⟩] = some r ∧
      isAutoTrack r = false) := by
  exact (selectBestTrack_spec
      [⟨some "en", none, some "asr", some "English (auto-generated)"⟩,
        ⟨some "ja", none, none, some "Japanese"⟩] (by decide)).2.1
    (by decide) ⟨⟨some "ja", none, none, some "Japanese"⟩, by decide, by decide⟩

/-- Soundness of the last-marker scan: a hit names a position carrying a
marker of the reported length. -/
theorem lastMarkerScan_sound :
    ∀ (s : List Char) (pos p k : Nat), lastMarkerScan s pos = some (p, k) →
      pos ≤ p ∧ markerAt (s.drop (p - pos)) = some k := by
  intro s
  induction s with
  | nil => intro pos p k h; simp [lastMarkerScan] at h
  | cons c rest ih =>
    intro pos p k h
    rw [lastMarkerScan] at h
    by_cases hc : c = '\n'
    · rw [if_pos hc] at h
      cases hm : markerAt (c :: rest) with
      | none => rw [hm] at h; simp at h
      | some k2 =>
        rw [hm] at h
        obtain ⟨hp, hk⟩ : pos = p ∧ k2 = k := by simpa [Prod.ext_iff] using h
        subst hp
        subst hk
        exact ⟨le_refl _, by rw [Nat.sub_self, List.drop_zero, hm]⟩
    · rw [if_neg hc] at h
      cases hrec : lastMarkerScan rest (pos + 1) with
      | some r =>
        rw [hrec] at h
        obtain rfl : r = (p, k) := by simpa using h
        obtain ⟨hle, hm⟩ := ih (pos + 1) p k hrec
        refine ⟨le_trans (Nat.le_succ pos) hle, ?_⟩
        have hps : p - pos = (p - (pos + 1)) + 1 := by omega
        rw [hps, List.drop_succ_cons]
        exact hm
      | none =>
        rw [hrec] at h
        cases hm : markerAt (c :: rest) with
        | none => rw [hm] at h; simp at h
        | some k2 =>
          rw [hm] at h
          obtain ⟨hp, hk⟩ : pos = p ∧ k2 = k := by simpa [Prod.ext_iff] using h
          subst hp
          subst hk
          exact ⟨le_refl _, by rw [Nat.sub_self, List.drop_zero, hm]⟩

/-- Completeness of the last-marker scan: with no marker anywhere the scan
reports nothing. -/
theorem lastMarkerScan_none :
    ∀ (s : List Char) (pos : Nat), (∀ p, p < s.length → markerAt (s.drop p) = none) →
      lastMarkerScan s pos = none := by
  intro s
  induction s with
  | nil => intro pos _; rfl
  | cons c rest ih =>
    intro pos hnone
    have h0 : markerAt (c :: rest) = none := by
      simpa using hnone 0 (Nat.succ_pos _)
    have hrest : ∀ p, p < rest.length → markerAt (rest.drop p) = none := by
      intro p hp
      simpa [List.drop_succ_cons] using hnone (p + 1) (by simpa using Nat.succ_lt_succ hp)
    rw [lastMarkerScan, h0]
    by_cases hc : c = '\n'
    · rw [if_pos hc]
      rfl
    · rw [if_neg hc, ih (pos + 1) hrest]
      rfl

/-- C8: extractVideoId returns an identifier only when the fixed pattern
matches: the result always has exactly 11 characters and is the run of
non-delimiter characters following one of the eight shape markers; a url
containing no marker at any position yields none, and so does a match
whose captured identifier does not have 11 characters.  All seven spec
shapes extract the embedded 11-character id, and malformed urls yield
none. -/
theorem extractVideoId_spec (url : String) :
    (∀ i, extractVideoId url = some i →
      i.length = 11 ∧
      ∃ p k, markerAt (url.toList.drop p) = some k ∧
        i.toList = (url.toList.drop (p + k)).takeWhile notDelim) ∧
    ((∀ p, p < url.toList.length → markerAt (url.toList.drop p) = none) →
      extractVideoId url = none) ∧
    (∀ p k, lastMarkerScan url.toList 0 = some (p, k) →
      ((url.toList.drop (p + k)).takeWhile notDelim).length ≠ 11 →
      extractVideoId url = none) ∧
    extractVideoId "https://www.youtube.com/watch?v=dQw4w9WgXcQ" = some "dQw4w9WgXcQ" ∧
    extractVideoId "https://youtu.be/dQw4w9WgXcQ" = some "dQw4w9WgXcQ" ∧
    extractVideoId "https://www.youtube.com/embed/dQw4w9WgXcQ" = some "dQw4w9WgXcQ" ∧
    extractVideoId "https://www.youtube.com/shorts/dQw4w9WgXcQ" = some "dQw4w9WgXcQ" ∧
    extractVideoId "https://www.youtube.com/v/dQw4w9WgXcQ" = some "dQw4w9WgXcQ" ∧
    extractVideoId "https://www.youtube.com/u/w/dQw4w9WgXcQ" = some "dQw4w9WgXcQ" ∧
    extractVideoId "https://www.youtube.com/watch?foo=1&v=dQw4w9WgXcQ" =
      some "dQw4w9WgXcQ" ∧
    extractVideoId "https://www.youtube.com/watch?v=dQw4w9WgXcQ&list=PL123" =
      some "dQw4w9WgXcQ" ∧
    extractVideoId "https://example.com/nothing" = none ∧
    extractVideoId "https://youtu.be/tooShort" = none ∧
    extractVideoId "" = none := by
  refine ⟨?_, ?_, ?_, by decide, by decide, by decide, by decide, by decide, by decide,
    by decide, by decide, by decide, by decide, by decide⟩
  · intro i hi
    rw [extractVideoId] at hi
    cases hscan : lastMarkerScan url.toList 0 with
    | none => rw [hscan] at hi; simp at hi
    | some pk =>
      obtain ⟨p, k⟩ := pk
      rw [hscan] at hi
      simp only at hi
      by_cases hlen : ((url.toList.drop (p + k)).takeWhile notDelim).length = 11
      · rw [if_pos hlen] at hi
        obtain rfl : String.mk ((url.toList.drop (p + k)).takeWhile notDelim) = i := by
          simpa using hi
        obtain ⟨-, hm⟩ := lastMarkerScan_sound url.toList 0 p k hscan
        rw [Nat.sub_zero] at hm
        exact ⟨hlen, p, k, hm, rfl⟩
      · rw [if_neg hlen] at hi
        simp at hi
  · intro hnone
    rw [extractVideoId, lastMarkerScan_none url.toList 0 hnone]
  · intro p k hscan hlen
    rw [extractVideoId, hscan]
    simp only
    rw [if_neg hlen]

/-- Witness for extractVideoId_spec: the no-marker branch at a concrete
marker-free url, and the soundness branch at a concrete extraction. -/
theorem extractVideoId_spec_witness :
    extractVideoId "hello world" = none ∧
    ("dQw4w9WgXcQ" : String).length = 11 := by
  constructor
  · exact (extractVideoId_spec "hello world").2.1 (by decide)
  · exact ((extractVideoId_spec "https://youtu.be/dQw4w9WgXcQ").1 "dQw4w9WgXcQ"
      (by decide)).1

/-! Characterization of one scheduling pass. -/

/-- The net update that the synchronous prefix of processJob applies to an
admitted idle job. -/
def admitUpd (cfg : KeyConfig) (j : VideoJob) : JobUpdate :=
  if getActiveApiKey cfg = "" then missingKeyUpd
  else if j.source = JobSource.youtube ∧ j.url.isSome then statusUpd JobStatus.UPLOADING
  else if j.source = JobSource.file ∧ j.file.isSome then statusUpd JobStatus.PROCESSING
  else errorUpd "Invalid Job Source"

/-- Does admitting this job leave an in-flight task behind? -/
def spawns (cfg : KeyConfig) (j : VideoJob) : Prop :=
  getActiveApiKey cfg ≠ "" ∧
    ((j.source = JobSource.youtube ∧ j.url.isSome) ∨
      (j.source = JobSource.file ∧ j.file.isSome))

instance (cfg : KeyConfig) (j : VideoJob) : Decidable (spawns cfg j) := by
  unfold spawns
  infer_instance

/-- The task spawned for an admitted job. -/
def mkSpawnedTask (snapshot : List VideoJob) (j : VideoJob) : TranscribeTask :=
  ⟨j.id, snapshot, j,
    if j.source = JobSource.youtube then TaskPhase.fetching else TaskPhase.refining⟩

theorem admitUpd_id (cfg : KeyConfig) (j : VideoJob) : (admitUpd cfg j).id = none := by
  unfold admitUpd
  repeat' split
  all_goals rfl

theorem applyUpdate_id_of_none (j : VideoJob) (u : JobUpdate) (hu : u.id = none) :
    (applyUpdate j u).id = j.id := by
  simp [applyUpdate, hu]

/-- Distinct ids identify list members. -/
theorem id_unique {l : List VideoJob} (hnd : (l.map (fun j => j.id)).Nodup)
    {x y : VideoJob} (hx : x ∈ l) (hy : y ∈ l) (hxy : x.id = y.id) : x = y := by
  induction l with
  | nil => cases hx
  | cons a t ih =>
    simp only [List.map_cons, List.nodup_cons, List.mem_map] at hnd
    rcases List.mem_cons.1 hx with rfl | hx2 <;> rcases List.mem_cons.1 hy with rfl | hy2
    · rfl
    · exact absurd ⟨y, hy2, hxy.symm⟩ hnd.1
    · exact absurd ⟨x, hx2, hxy⟩ hnd.1
    · exact ih hnd.2 hx2 hy2

/-- With distinct ids, the find-by-id in processJob returns the job
itself. -/
theorem find?_id_of_nodup {l : List VideoJob} (hnd : (l.map (fun j => j.id)).Nodup)
    {j : VideoJob} (hj : j ∈ l) : l.find? (fun x => x.id = j.id) = some j := by
  induction l with
  | nil => cases hj
  | cons a t ih =>
    by_cases h : a.id = j.id
    · rw [List.find?_cons_of_pos _ (by simpa using h)]
      exact congrArg some (id_unique hnd (List.mem_cons_self ..) hj h)
    · rw [List.find?_cons_of_neg _ (by simpa using h)]
      rcases List.mem_cons.1 hj with rfl | hj2
      · exact absurd rfl h
      · simp only [List.map_cons, List.nodup_cons] at hnd
        exact ih hnd.2 hj2

/-- Pointwise combination of one admission step with the rest of a pass. -/
theorem map_branch_eq (cfg : KeyConfig) (base : List VideoJob)
    (hnd : (base.map (fun j => j.id)).Nodup)
    (j : VideoJob) (hjbase : j ∈ base) (ids : List String) (hjids : j.id ∉ ids)
    (g : VideoJob → VideoJob) (u : JobUpdate) (hu : u = admitUpd cfg j) :
    base.map (fun x => if x.id ∈ ids
        then applyUpdate ((fun y => if y.id = j.id then applyUpdate (g y) u else g y) x)
          (admitUpd cfg x)
        else (fun y => if y.id = j.id then applyUpdate (g y) u else g y) x) =
    base.map (fun x => if x.id ∈ j.id :: ids
        then applyUpdate (g x) (admitUpd cfg x) else g x) := by
  refine List.map_congr_left (fun x hx => ?_)
  by_cases h1 : x.id ∈ ids
  · have h2 : x.id ≠ j.id := fun he => hjids (he ▸ h1)
    rw [if_pos h1]
    show applyUpdate (if x.id = j.id then applyUpdate (g x) u else g x)
        (admitUpd cfg x) = _
    rw [if_neg h2, if_pos (List.mem_cons.2 (Or.inr h1))]
  · by_cases h2 : x.id = j.id
    · have hxj : x = j := id_unique hnd hx hjbase h2
      subst hxj
      rw [if_neg h1]
      show (if x.id = x.id then applyUpdate (g x) u else g x) = _
      rw [if_pos rfl, if_pos (List.mem_cons.2 (Or.inl rfl)), hu]
    · have h3 : x.id ∉ j.id :: ids := by
        intro hc
        rcases List.mem_cons.1 hc with hc1 | hc2
        · exact h2 hc1
        · exact h1 hc2
      rw [if_neg h1]
      show (if x.id = j.id then applyUpdate (g x) u else g x) = _
      rw [if_neg h2, if_neg h3]

theorem updateJob_map (base : List VideoJob) (g : VideoJob → VideoJob)
    (hg : ∀ x, (g x).id = x.id) (i : String) (u : JobUpdate) :
    updateJob (base.map g) i u =
      base.map (fun x => if x.id = i then applyUpdate (g x) u else g x) := by
  rw [updateJob, List.map_map]
  exact List.map_congr_left (fun x _ => by simp only [Function.comp, hg])

/-- The synchronous fold of one scheduling pass, characterized as a single
map over the job list plus an append of spawned tasks, provided the
started jobs are distinct idle members of the snapshot. -/
theorem foldl_processJobStart (cfg : KeyConfig) (base : List VideoJob)
    (hnd : (base.map (fun j => j.id)).Nodup) :
    ∀ (ts : List VideoJob) (g : VideoJob → VideoJob) (r : Bool)
      (tk : List TranscribeTask),
      (∀ x, (g x).id = x.id) →
      (∀ j ∈ ts, j ∈ base ∧ j.status = JobStatus.IDLE) →
      (ts.map (fun j => j.id)).Nodup →
      ts.foldl (fun a job => processJobStart cfg base job.id a) ⟨base.map g, r, tk⟩ =
        ⟨base.map (fun x => if x.id ∈ ts.map (fun j => j.id)
              then applyUpdate (g x) (admitUpd cfg x) else g x),
          if getActiveApiKey cfg = "" ∧ ts ≠ [] then false else r,
          tk ++ (ts.filter (fun j => decide (spawns cfg j))).map (mkSpawnedTask base)⟩ := by
  intro ts
  induction ts with
  | nil =>
    intro g r tk hg hts hndts
    simp
  | cons j ts ih =>
    intro g r tk hg hts hndts
    obtain ⟨hjbase, hjidle⟩ := hts j (List.mem_cons_self ..)
    have hfind : base.find? (fun x => x.id = j.id) = some j := find?_id_of_nodup hnd hjbase
    have hndts2 : (j.id :: ts.map (fun x => x.id)).Nodup := by
      rw [List.map_cons] at hndts
      exact hndts
    have hjids : j.id ∉ ts.map (fun x => x.id) := (List.nodup_cons.1 hndts2).1
    have htail : ∀ x ∈ ts, x ∈ base ∧ x.status = JobStatus.IDLE :=
      fun x hx => hts x (List.mem_cons_of_mem _ hx)
    have hndtail : (ts.map (fun x => x.id)).Nodup := (List.nodup_cons.1 hndts2).2
    rw [List.foldl_cons]
    by_cases hkey : getActiveApiKey cfg = ""
    · have hstep : processJobStart cfg base j.id ⟨base.map g, r, tk⟩ =
          ⟨base.map (fun y => if y.id = j.id then applyUpdate (g y) missingKeyUpd
              else g y), false, tk⟩ := by
        rw [processJobStart, hfind]
        simp only [hjidle]
        rw [if_neg (by simp), if_pos hkey, updateJob_map base g hg]
      rw [hstep]
      have hg2 : ∀ x, ((fun y => if y.id = j.id then applyUpdate (g y) missingKeyUpd
          else g y) x).id = x.id := by
        intro x
        by_cases h : x.id = j.id <;>
          simp [h, applyUpdate_id_of_none, missingKeyUpd, hg x]
      rw [ih _ false tk hg2 htail hndtail]
      have hju : missingKeyUpd = admitUpd cfg j := by rw [admitUpd, if_pos hkey]
      have hspawn : ¬spawns cfg j := fun hs => hs.1 hkey
      congr 1
      · simp only [List.map_cons]
        exact map_branch_eq cfg base hnd j hjbase _ hjids g missingKeyUpd hju
      · simp [hkey]
      · simp [hspawn]
    · have hju : admitUpd cfg j =
          (if j.source = JobSource.youtube ∧ j.url.isSome then
            statusUpd JobStatus.UPLOADING
          else if j.source = JobSource.file ∧ j.file.isSome then
            statusUpd JobStatus.PROCESSING
          else errorUpd "Invalid Job Source") := by
        rw [admitUpd, if_neg hkey]
      by_cases hyt : j.source = JobSource.youtube ∧ j.url.isSome
      · have hstep : processJobStart cfg base j.id ⟨base.map g, r, tk⟩ =
            ⟨base.map (fun y => if y.id = j.id then
                applyUpdate (g y) (statusUpd JobStatus.UPLOADING) else g y), r,
              tk ++ [⟨j.id, base, j, TaskPhase.fetching⟩]⟩ := by
          rw [processJobStart, hfind]
          simp only [hjidle]
          rw [if_neg (by simp), if_neg hkey, if_pos hyt, updateJob_map base g hg]
        rw [hstep]
        have hg2 : ∀ x, ((fun y => if y.id = j.id then
            applyUpdate (g y) (statusUpd JobStatus.UPLOADING) else g y) x).id = x.id := by
          intro x
          by_cases h : x.id = j.id <;>
            simp [h, applyUpdate_id_of_none, statusUpd, hg x]
        rw [ih _ r (tk ++ [TranscribeTask.mk j.id base j TaskPhase.fetching]) hg2 htail hndtail]
        have hju2 : statusUpd JobStatus.UPLOADING = admitUpd cfg j := by
          rw [hju, if_pos hyt]
        have hspawn : spawns cfg j := ⟨hkey, Or.inl hyt⟩
        have htask : mkSpawnedTask base j = ⟨j.id, base, j, TaskPhase.fetching⟩ := by
          rw [mkSpawnedTask, if_pos hyt.1]
        congr 1
        · simp only [List.map_cons]
          exact map_branch_eq cfg base hnd j hjbase _ hjids g _ hju2
        · simp [hkey]
        · simp [hspawn, htask]
      · by_cases hfl : j.source = JobSource.file ∧ j.file.isSome
        · have hstep : processJobStart cfg base j.id ⟨base.map g, r, tk⟩ =
              ⟨base.map (fun y => if y.id = j.id then
                  applyUpdate (g y) (statusUpd JobStatus.PROCESSING) else g y), r,
                tk ++ [⟨j.id, base, j, TaskPhase.refining⟩]⟩ := by
            rw [processJobStart, hfind]
            simp only [hjidle]
            rw [if_neg (by simp), if_neg hkey, if_neg hyt, if_pos hfl,
              updateJob_map base g hg,
              updateJob_map base
                (fun y => if y.id = j.id then
                  applyUpdate (g y) (statusUpd JobStatus.UPLOADING) else g y)
                (fun x => by
                  by_cases h : x.id = j.id <;>
                    simp [h, applyUpdate_id_of_none, statusUpd, hg x])]
            congr 1
            refine List.map_congr_left (fun x _ => ?_)
            by_cases h : x.id = j.id
            · simp only [if_pos h, applyUpdate_statusUpd_statusUpd, applyUpdate_statusUpd]
            · rw [if_neg h, if_neg h, if_neg h]
          rw [hstep]
          have hg2 : ∀ x, ((fun y => if y.id = j.id then
              applyUpdate (g y) (statusUpd JobStatus.PROCESSING) else g y) x).id =
              x.id := by
            intro x
            by_cases h : x.id = j.id <;>
              simp [h, applyUpdate_id_of_none, statusUpd, hg x]
          rw [ih _ r (tk ++ [TranscribeTask.mk j.id base j TaskPhase.refining]) hg2 htail hndtail]
          have hju2 : statusUpd JobStatus.PROCESSING = admitUpd cfg j := by
            rw [hju, if_neg hyt, if_pos hfl]
          have hspawn : spawns cfg j := ⟨hkey, Or.inr hfl⟩
          have hnyt : j.source ≠ JobSource.youtube := by
            intro h
            rcases hfl with ⟨hf, -⟩
            rw [h] at hf
            cases hf
          have htask : mkSpawnedTask base j = ⟨j.id, base, j, TaskPhase.refining⟩ := by
            rw [mkSpawnedTask, if_neg hnyt]
          congr 1
          · simp only [List.map_cons]
            exact map_branch_eq cfg base hnd j hjbase _ hjids g _ hju2
          · simp [hkey]
          · simp [hspawn, htask]
        · have hstep : processJobStart cfg base j.id ⟨base.map g, r, tk⟩ =
              ⟨base.map (fun y => if y.id = j.id then
                  applyUpdate (g y) (errorUpd "Invalid Job Source") else g y), r, tk⟩ := by
            rw [processJobStart, hfind]
            simp only [hjidle]
            rw [if_neg (by simp), if_neg hkey, if_neg hyt, if_neg hfl,
              updateJob_map base g hg,
              updateJob_map base
                (fun y => if y.id = j.id then
                  applyUpdate (g y) (statusUpd JobStatus.UPLOADING) else g y)
                (fun x => by
                  by_cases h : x.id = j.id <;>
                    simp [h, applyUpdate_id_of_none, statusUpd, hg x])]
            congr 1
            refine List.map_congr_left (fun x _ => ?_)
            by_cases h : x.id = j.id
            · simp only [if_pos h, applyUpdate_statusUpd_errorUpd]
            · rw [if_neg h, if_neg h, if_neg h]
          rw [hstep]
          have hg2 : ∀ x, ((fun y => if y.id = j.id then
              applyUpdate (g y) (errorUpd "Invalid Job Source") else g y) x).id =
              x.id := by
            intro x
            by_cases h : x.id = j.id <;>
              simp [h, applyUpdate_id_of_none, errorUpd, hg x]
          rw [ih _ r tk hg2 htail hndtail]
          have hju2 : errorUpd "Invalid Job Source" = admitUpd cfg j := by
            rw [hju, if_neg hyt, if_neg hfl]
          have hspawn : ¬spawns cfg j := by
            rintro ⟨-, h | h⟩
            · exact hyt h
            · exact hfl h
          congr 1
          · simp only [List.map_cons]
            exact map_branch_eq cfg base hnd j hjbase _ hjids g _ hju2
          · simp [hkey]
          · simp [hspawn]

/-- The jobs selected by one pass (the slice of idle jobs in queue order
limited by the free slots). -/
def admittedJobs (s : AppState) : List VideoJob :=
  (s.jobs.filter (fun j => isIdle j)).take
    (effectiveLimit s - s.jobs.countP (fun j => isActive j))

/-- One running pass, in closed form: the admitted ids are the ids of the
leading idle slice, each admitted job is rewritten by its net admission
update, the run flag drops exactly when a job was admitted without a
credential, and one task is appended per admitted job that reached an
await. -/
theorem schedulerPass_closed (s : AppState)
    (hnd : (s.jobs.map (fun j => j.id)).Nodup) (hrun : s.running = true) :
    schedulerPass s =
      ({ s with
          jobs := s.jobs.map (fun x =>
            if x.id ∈ (admittedJobs s).map (fun j => j.id)
            then applyUpdate x (admitUpd s.cfg x) else x)
          running :=
            if getActiveApiKey s.cfg = "" ∧ admittedJobs s ≠ [] then false else true
          tasks := s.tasks ++
            ((admittedJobs s).filter (fun j => decide (spawns s.cfg j))).map
              (mkSpawnedTask s.jobs) },
        (admittedJobs s).map (fun j => j.id)) := by
  have hts : ∀ j ∈ admittedJobs s, j ∈ s.jobs ∧ j.status = JobStatus.IDLE := by
    intro j hj
    have h1 : j ∈ s.jobs.filter (fun j => isIdle j) := List.take_subset _ _ hj
    refine ⟨List.mem_of_mem_filter h1, ?_⟩
    simpa [isIdle] using List.of_mem_filter h1
  have hsub : List.Sublist (admittedJobs s) s.jobs :=
    (List.take_sublist _ _).trans (List.filter_sublist _)
  have hndts : ((admittedJobs s).map (fun j => j.id)).Nodup :=
    hnd.sublist (hsub.map _)
  have hfold := foldl_processJobStart s.cfg s.jobs hnd (admittedJobs s)
    (fun x => x) s.running s.tasks (fun _ => rfl) hts hndts
  rw [List.map_id'] at hfold
  by_cases hslots : 0 < effectiveLimit s - s.jobs.countP (fun j => isActive j)
  · rw [schedulerPass]
    rw [if_neg (by rw [hrun]; simp)]
    simp only
    rw [if_pos hslots]
    have hstart : (s.jobs.filter (fun j => isIdle j)).take
        (effectiveLimit s - s.jobs.countP (fun j => isActive j)) = admittedJobs s := rfl
    rw [hstart, hfold, hrun]
  · have hemp : admittedJobs s = [] := by
      rw [admittedJobs, Nat.eq_zero_of_not_pos hslots, List.take_zero]
    rw [schedulerPass]
    rw [if_neg (by rw [hrun]; simp)]
    simp only
    rw [if_neg hslots, hemp]
    simp only [List.map_nil, List.filter_nil, List.append_nil, List.not_mem_nil,
      if_false, ne_eq, not_true_eq_false, and_false]
    rw [Prod.mk.injEq]
    refine ⟨?_, rfl⟩
    have hjobs : (s.jobs.map (fun x => x)) = s.jobs := List.map_id' _
    cases s with
    | mk jobs library running auto limit cfg sk tasks =>
      simp only at hrun ⊢
      rw [hrun]
      simp [List.map_id']

theorem countP_or_disjoint (l : List VideoJob) (p q : VideoJob → Bool)
    (h : ∀ x ∈ l, ¬(p x = true ∧ q x = true)) :
    l.countP (fun x => p x || q x) = l.countP p + l.countP q := by
  induction l with
  | nil => simp
  | cons a t ih =>
    have ha := h a (List.mem_cons_self ..)
    have ht : ∀ x ∈ t, ¬(p x = true ∧ q x = true) :=
      fun x hx => h x (List.mem_cons_of_mem _ hx)
    rw [List.countP_cons, List.countP_cons, List.countP_cons, ih ht]
    cases hp : p a <;> cases hq : q a <;> simp [hp, hq] at ha ⊢ <;> omega

theorem countP_id_eq_one (l : List VideoJob)
    (hnd : (l.map (fun j => j.id)).Nodup) (i : String)
    (hi : i ∈ l.map (fun j => j.id)) :
    l.countP (fun x => decide (x.id = i)) = 1 := by
  induction l with
  | nil => cases hi
  | cons a t ih =>
    rw [List.map_cons, List.nodup_cons] at hnd
    rw [List.countP_cons]
    by_cases h : a.id = i
    · have hz : t.countP (fun x => decide (x.id = i)) = 0 := by
        rw [List.countP_eq_zero]
        intro x hx
        simp only [decide_eq_true_eq]
        intro hxi
        apply hnd.1
        rw [h, ← hxi]
        exact List.mem_map_of_mem _ hx
      simp [hz, h]
    · have hit : i ∈ t.map (fun j => j.id) := by
        rcases List.mem_map.1 hi with ⟨x, hx, hxi⟩
        rcases List.mem_cons.1 hx with rfl | hx2
        · exact absurd hxi h
        · exact hxi ▸ List.mem_map_of_mem _ hx2
      simp [ih hnd.2 hit, h]

theorem countP_mem_ids (l : List VideoJob) (ids : List String)
    (hnd : (l.map (fun j => j.id)).Nodup) (hids : ids.Nodup)
    (hsub : ∀ i ∈ ids, i ∈ l.map (fun j => j.id)) :
    l.countP (fun x => decide (x.id ∈ ids)) = ids.length := by
  induction ids with
  | nil => simp
  | cons i ids ih =>
    rw [List.nodup_cons] at hids
    have hsplit : l.countP (fun x => decide (x.id ∈ i :: ids)) =
        l.countP (fun x => decide (x.id = i) || decide (x.id ∈ ids)) := by
      refine List.countP_congr (fun x _ => ?_)
      simp [List.mem_cons]
    have hdisj : ∀ x ∈ l,
        ¬(decide (x.id = i) = true ∧ decide (x.id ∈ ids) = true) := by
      rintro x - ⟨hx1, hx2⟩
      exact hids.1 (of_decide_eq_true hx1 ▸ of_decide_eq_true hx2)
    rw [hsplit, countP_or_disjoint l _ _ hdisj, countP_id_eq_one l hnd i
      (hsub i (List.mem_cons_self ..)),
      ih hids.2 (fun i2 hi2 => hsub i2 (List.mem_cons_of_mem _ hi2)),
      List.length_cons]
    omega

theorem countP_map_admit (l : List VideoJob) (f : VideoJob → VideoJob)
    (ids : List String)
    (h1 : ∀ x ∈ l, x.id ∈ ids → isActive (f x) = true ∧ isIdle x = true)
    (h2 : ∀ x ∈ l, x.id ∉ ids → f x = x) :
    (l.map f).countP (fun j => isActive j) =
      l.countP (fun j => isActive j) + l.countP (fun x => decide (x.id ∈ ids)) ∧
    (l.map f).countP (fun j => isIdle j) + l.countP (fun x => decide (x.id ∈ ids)) =
      l.countP (fun j => isIdle j) := by
  induction l with
  | nil => simp
  | cons a t ih =>
    have ha1 := h1 a (List.mem_cons_self ..)
    have ha2 := h2 a (List.mem_cons_self ..)
    obtain ⟨iha, ihi⟩ := ih (fun x hx => h1 x (List.mem_cons_of_mem _ hx))
      (fun x hx => h2 x (List.mem_cons_of_mem _ hx))
    simp only [List.map_cons, List.countP_cons]
    by_cases hm : a.id ∈ ids
    · obtain ⟨hact, hidl⟩ := ha1 hm
      have hnact : isActive a = false := by
        rw [isIdle] at hidl
        rw [isActive]
        simp only [decide_eq_true_eq] at hidl
        simp [hidl]
      have hnidl : isIdle (f a) = false := by
        rw [isActive] at hact
        rw [isIdle]
        rcases Bool.or_eq_true_iff.1 hact with h | h <;>
          simp only [decide_eq_true_eq] at h <;> simp [h]
      rw [if_pos hact, if_neg (by simp [hnact]), if_pos (decide_eq_true hm),
        if_neg (by simp [hnidl]), if_pos hidl]
      omega
    · have hd : decide (a.id ∈ ids) = false := by simpa using hm
      rw [ha2 hm]
      simp only [hd, Bool.false_eq_true, if_false]
      omega

theorem admitUpd_active (cfg : KeyConfig) (x : VideoJob)
    (hkey : getActiveApiKey cfg ≠ "")
    (hx : (x.source = JobSource.youtube → x.url.isSome) ∧
      (x.source = JobSource.file → x.file.isSome)) :
    isActive (applyUpdate x (admitUpd cfg x)) = true ∧
    (applyUpdate x (admitUpd cfg x)).status ≠ JobStatus.IDLE := by
  rw [admitUpd, if_neg hkey]
  cases hsrc : x.source with
  | youtube =>
    rw [if_pos ⟨rfl, hx.1 hsrc⟩, applyUpdate_statusUpd]
    exact ⟨by simp [isActive], by simp⟩
  | file =>
    rw [if_neg (fun h => JobSource.noConfusion h.1),
      if_pos ⟨rfl, hx.2 hsrc⟩, applyUpdate_statusUpd]
    exact ⟨by simp [isActive], by simp⟩

/-- Every id a pass admits belongs to an idle job of the state it read. -/
theorem schedulerPass_adm_sub (t : AppState) :
    ∀ i ∈ (schedulerPass t).2,
      i ∈ (t.jobs.filter (fun j => isIdle j)).map (fun j => j.id) := by
  intro i hi
  rw [schedulerPass] at hi
  by_cases h1 : t.running = false
  · rw [if_pos h1] at hi
    simp at hi
  · rw [if_neg h1] at hi
    simp only at hi
    by_cases h2 : 0 < effectiveLimit t - t.jobs.countP (fun j => isActive j)
    · rw [if_pos h2] at hi
      simp only at hi
      rcases List.mem_map.1 hi with ⟨x, hx, rfl⟩
      exact List.mem_map_of_mem _ (List.take_subset _ _ hx)
    · rw [if_neg h2] at hi
      simp at hi

theorem admittedJobs_mem (s : AppState) :
    ∀ j ∈ admittedJobs s, j ∈ s.jobs ∧ j.status = JobStatus.IDLE := by
  intro j hj
  have h1 : j ∈ s.jobs.filter (fun j => isIdle j) := List.take_subset _ _ hj
  exact ⟨List.mem_of_mem_filter h1, by simpa [isIdle] using List.of_mem_filter h1⟩

theorem admittedJobs_ids_nodup (s : AppState)
    (hnd : (s.jobs.map (fun j => j.id)).Nodup) :
    ((admittedJobs s).map (fun j => j.id)).Nodup :=
  hnd.sublist (((List.take_sublist _ _).trans (List.filter_sublist _)).map _)

/-- C1: in a running pass with a resolving credential, the admitted ids are
the first so-many idle ids in queue insertion order; exactly the minimum of
the free slots and the idle count is admitted; the active count grows and
the idle count shrinks by exactly that number (in particular, starting from
no active jobs with more idle jobs than the limit, exactly the limit many
are left Uploading or Processing and the rest stay Idle); each admitted job
is non-Idle in the resulting state, no id is admitted twice within the
pass, and a second pass admits none of them again. -/
theorem schedulerPass_spec (s : AppState)
    (hnd : (s.jobs.map (fun j => j.id)).Nodup)
    (hrun : s.running = true)
    (hkey : getActiveApiKey s.cfg ≠ "")
    (hwf : ∀ j ∈ s.jobs, j.status = JobStatus.IDLE →
      (j.source = JobSource.youtube → j.url.isSome) ∧
      (j.source = JobSource.file → j.file.isSome)) :
    (schedulerPass s).2 =
      ((s.jobs.filter (fun j => isIdle j)).map (fun j => j.id)).take
        (effectiveLimit s - s.jobs.countP (fun j => isActive j)) ∧
    (schedulerPass s).2.length =
      min (effectiveLimit s - s.jobs.countP (fun j => isActive j))
        (s.jobs.countP (fun j => isIdle j)) ∧
    (schedulerPass s).1.jobs.countP (fun j => isActive j) =
      s.jobs.countP (fun j => isActive j) + (schedulerPass s).2.length ∧
    (schedulerPass s).1.jobs.countP (fun j => isIdle j) + (schedulerPass s).2.length =
      s.jobs.countP (fun j => isIdle j) ∧
    (∀ i ∈ (schedulerPass s).2, ∀ j ∈ (schedulerPass s).1.jobs, j.id = i →
      j.status ≠ JobStatus.IDLE) ∧
    (schedulerPass s).2.Nodup ∧
    (∀ i ∈ (schedulerPass (schedulerPass s).1).2, i ∉ (schedulerPass s).2) ∧
    (s.jobs.countP (fun j => isActive j) = 0 →
      effectiveLimit s < s.jobs.countP (fun j => isIdle j) →
      (schedulerPass s).1.jobs.countP (fun j => isActive j) = effectiveLimit s ∧
      (schedulerPass s).1.jobs.countP (fun j => isIdle j) =
        s.jobs.countP (fun j => isIdle j) - effectiveLimit s) := by
  have hclosed := schedulerPass_closed s hnd hrun
  have hndids := admittedJobs_ids_nodup s hnd
  have hmem : ∀ x ∈ s.jobs, x.id ∈ (admittedJobs s).map (fun j => j.id) →
      x ∈ admittedJobs s := by
    intro x hx hxid
    rcases List.mem_map.1 hxid with ⟨j, hj, hjid⟩
    have hjx : j = x := id_unique hnd (admittedJobs_mem s j hj).1 hx hjid
    exact hjx ▸ hj
  have hf1 : ∀ x ∈ s.jobs, x.id ∈ (admittedJobs s).map (fun j => j.id) →
      isActive ((fun x => if x.id ∈ (admittedJobs s).map (fun j => j.id)
        then applyUpdate x (admitUpd s.cfg x) else x) x) = true ∧
      isIdle x = true := by
    intro x hx hxid
    have hidle := (admittedJobs_mem s x (hmem x hx hxid)).2
    refine ⟨?_, by simp [isIdle, hidle]⟩
    simp only [if_pos hxid]
    exact (admitUpd_active s.cfg x hkey (hwf x hx hidle)).1
  have hf2 : ∀ x ∈ s.jobs, x.id ∉ (admittedJobs s).map (fun j => j.id) →
      (fun x => if x.id ∈ (admittedJobs s).map (fun j => j.id)
        then applyUpdate x (admitUpd s.cfg x) else x) x = x := by
    intro x _ hxid
    simp only [if_neg hxid]
  have hcount := countP_map_admit s.jobs _ _ hf1 hf2
  have hsubids : ∀ i ∈ (admittedJobs s).map (fun j => j.id),
      i ∈ s.jobs.map (fun j => j.id) := by
    intro i hi
    rcases List.mem_map.1 hi with ⟨j, hj, rfl⟩
    exact List.mem_map_of_mem _ (admittedJobs_mem s j hj).1
  have hcards := countP_mem_ids s.jobs _ hnd hndids hsubids
  have hadm2 : (schedulerPass s).2 = (admittedJobs s).map (fun j => j.id) := by
    rw [hclosed]
  have hjobs2 : (schedulerPass s).1.jobs = s.jobs.map
      (fun x => if x.id ∈ (admittedJobs s).map (fun j => j.id)
        then applyUpdate x (admitUpd s.cfg x) else x) := by
    rw [hclosed]
  have hlen : (schedulerPass s).2.length =
      min (effectiveLimit s - s.jobs.countP (fun j => isActive j))
        (s.jobs.countP (fun j => isIdle j)) := by
    rw [hadm2, List.length_map, admittedJobs, List.length_take,
      List.countP_eq_length_filter, List.countP_eq_length_filter]
  have hact : (schedulerPass s).1.jobs.countP (fun j => isActive j) =
      s.jobs.countP (fun j => isActive j) + (schedulerPass s).2.length := by
    rw [hjobs2, hcount.1, hcards, hadm2, List.length_map]
  have hidl : (schedulerPass s).1.jobs.countP (fun j => isIdle j) +
      (schedulerPass s).2.length = s.jobs.countP (fun j => isIdle j) := by
    rw [hjobs2, hadm2, ← hcards, hcount.2]
  have hnonidle : ∀ i ∈ (schedulerPass s).2, ∀ j ∈ (schedulerPass s).1.jobs,
      j.id = i → j.status ≠ JobStatus.IDLE := by
    intro i hi j hj hji
    rw [hjobs2] at hj
    rcases List.mem_map.1 hj with ⟨x, hx, rfl⟩
    rw [hadm2] at hi
    by_cases hxid : x.id ∈ (admittedJobs s).map (fun j => j.id)
    · simp only [if_pos hxid]
      have hidle := (admittedJobs_mem s x (hmem x hx hxid)).2
      exact (admitUpd_active s.cfg x hkey (hwf x hx hidle)).2
    · simp only [if_neg hxid] at hji ⊢
      exact absurd (hji ▸ hi) hxid
  refine ⟨by rw [hadm2, admittedJobs, List.map_take], hlen, hact, hidl, hnonidle,
    by rw [hadm2]; exact hndids, ?_, ?_⟩
  · intro i hi2 hi1
    have hsub2 := schedulerPass_adm_sub (schedulerPass s).1 i hi2
    rcases List.mem_map.1 hsub2 with ⟨x, hx, rfl⟩
    have hxidle : isIdle x = true := List.of_mem_filter hx
    have hxmem : x ∈ (schedulerPass s).1.jobs := List.mem_of_mem_filter hx
    have := hnonidle x.id hi1 x hxmem rfl
    rw [isIdle] at hxidle
    exact this (of_decide_eq_true hxidle)
  · intro hzero hlt
    have hslots : effectiveLimit s - s.jobs.countP (fun j => isActive j) =
        effectiveLimit s := by rw [hzero, Nat.sub_zero]
    constructor
    · rw [hact, hzero, hlen, hslots, Nat.zero_add,
        Nat.min_eq_left (Nat.le_of_lt hlt)]
    · have := hidl
      rw [hlen, hslots, Nat.min_eq_left (Nat.le_of_lt hlt)] at this
      omega

/-- Sample running state: three idle file jobs, limit two, a configured
key. -/
def sampleRunState : AppState :=
  { jobs := [jobA, jobB, jobC], library := [], running := true,
    autoConcurrency := false, concurrencyLimit := 2,
    cfg := { apiKeys := [⟨"k1", "main", "gk"⟩], activeKeyId := some "k1",
             systemKey := none },
    searchApiKey := "", tasks := [] }

/-- Witness for schedulerPass_spec: with limit two and three idle jobs the
first two are admitted, leaving two active and one idle. -/
theorem schedulerPass_spec_witness :
    (schedulerPass sampleRunState).2 = ["a", "b"] ∧
    (schedulerPass sampleRunState).1.jobs.countP (fun j => isActive j) = 2 ∧
    (schedulerPass sampleRunState).1.jobs.countP (fun j => isIdle j) = 1 := by
  have h := schedulerPass_spec sampleRunState (by decide) (by decide) (by decide)
    (by decide)
  have h8 := h.2.2.2.2.2.2.2 (by decide) (by decide)
  exact ⟨h.1.trans (by decide), h8.1.trans (by decide), h8.2.trans (by decide)⟩

/-- A paused queue admits nothing and changes nothing. -/
theorem schedulerPass_paused (t : AppState) (h : t.running = false) :
    schedulerPass t = (t, []) := by
  rw [schedulerPass, if_pos h]

/-- C6: when no configured key matches the active id and no system default
exists, the credential resolves to the empty string, every job admitted by
a pass lands directly in Error with the missing-credential message, the
run flag is forced to paused as soon as one job was admitted, and the
following pass (still paused) admits nothing and changes nothing. -/
theorem missingCredential_spec (s : AppState)
    (hnd : (s.jobs.map (fun j => j.id)).Nodup)
    (hrun : s.running = true)
    (hmatch : ∀ k ∈ s.cfg.apiKeys, s.cfg.activeKeyId ≠ some k.id)
    (hsys : s.cfg.systemKey = none) :
    getActiveApiKey s.cfg = "" ∧
    (∀ i ∈ (schedulerPass s).2, ∀ j ∈ (schedulerPass s).1.jobs, j.id = i →
      j.status = JobStatus.ERROR ∧ j.error = some "Missing Gemini API Key") ∧
    ((schedulerPass s).2 ≠ [] → (schedulerPass s).1.running = false) ∧
    ((schedulerPass s).2 ≠ [] → (schedulerPass (schedulerPass s).1).2 = [] ∧
      (schedulerPass (schedulerPass s).1).1 = (schedulerPass s).1) := by
  have hkey0 : getActiveApiKey s.cfg = "" := by
    cases hak : s.cfg.activeKeyId with
    | none => simp [getActiveApiKey, hak, hsys]
    | some kid =>
      by_cases hk : kid = ""
      · simp [getActiveApiKey, hak, hk, hsys]
      · have hfind : s.cfg.apiKeys.find? (fun k => k.id = kid) = none := by
          rw [List.find?_eq_none]
          intro k hkmem
          simp only [decide_eq_true_eq]
          intro he
          exact hmatch k hkmem (by rw [hak, he])
        simp [getActiveApiKey, hak, hk, hfind, hsys]
  have hclosed := schedulerPass_closed s hnd hrun
  have hadm2 : (schedulerPass s).2 = (admittedJobs s).map (fun j => j.id) := by
    rw [hclosed]
  have hjobs2 : (schedulerPass s).1.jobs = s.jobs.map
      (fun x => if x.id ∈ (admittedJobs s).map (fun j => j.id)
        then applyUpdate x (admitUpd s.cfg x) else x) := by
    rw [hclosed]
  have hmem : ∀ x ∈ s.jobs, x.id ∈ (admittedJobs s).map (fun j => j.id) →
      x ∈ admittedJobs s := by
    intro x hx hxid
    rcases List.mem_map.1 hxid with ⟨j, hj, hjid⟩
    have hjx : j = x := id_unique hnd (admittedJobs_mem s j hj).1 hx hjid
    exact hjx ▸ hj
  have herr : ∀ i ∈ (schedulerPass s).2, ∀ j ∈ (schedulerPass s).1.jobs, j.id = i →
      j.status = JobStatus.ERROR ∧ j.error = some "Missing Gemini API Key" := by
    intro i hi j hj hji
    rw [hjobs2] at hj
    rcases List.mem_map.1 hj with ⟨x, hx, rfl⟩
    rw [hadm2] at hi
    by_cases hxid : x.id ∈ (admittedJobs s).map (fun j => j.id)
    · simp only [if_pos hxid]
      rw [admitUpd, if_pos hkey0]
      exact ⟨rfl, rfl⟩
    · simp only [if_neg hxid] at hji ⊢
      exact absurd (hji ▸ hi) hxid
  have hpause : (schedulerPass s).2 ≠ [] → (schedulerPass s).1.running = false := by
    intro hne
    rw [hadm2] at hne
    have hadmne : admittedJobs s ≠ [] := by
      intro he
      rw [he] at hne
      exact hne rfl
    rw [hclosed]
    simp only
    rw [if_pos ⟨hkey0, hadmne⟩]
  refine ⟨hkey0, herr, hpause, fun hne => ?_⟩
  have hp := schedulerPass_paused (schedulerPass s).1 (hpause hne)
  rw [hp]
  exact ⟨rfl, rfl⟩

/-- Sample running state whose active key id matches no configured key and
with no system default. -/
def sampleNoKeyState : AppState :=
  { jobs := [jobA, jobB], library := [], running := true,
    autoConcurrency := true, concurrencyLimit := 3,
    cfg := { apiKeys := [⟨"k1", "main", "gk"⟩], activeKeyId := some "zz",
             systemKey := none },
    searchApiKey := "", tasks := [] }

/-- Witness for missingCredential_spec at a concrete state: the credential
resolves empty, the pass pauses the queue, the admitted job lands in
Error, and the next pass admits nothing. -/
theorem missingCredential_spec_witness :
    getActiveApiKey sampleNoKeyState.cfg = "" ∧
    (schedulerPass sampleNoKeyState).1.running = false ∧
    (schedulerPass (schedulerPass sampleNoKeyState).1).2 = [] ∧
    (∀ j ∈ (schedulerPass sampleNoKeyState).1.jobs, j.id = "a" →
      j.status = JobStatus.ERROR ∧ j.error = some "Missing Gemini API Key") := by
  have h := missingCredential_spec sampleNoKeyState (by decide) (by decide)
    (by decide) (by decide)
  exact ⟨h.1, h.2.2.1 (by decide), (h.2.2.2 (by decide)).1,
    h.2.1 "a" (by decide)⟩

/-! The per-job status invariant and its preservation along every step. -/

/-- Exactly one of transcript and error is populated in a terminal status,
and neither is populated in an active or idle status. -/
def StatusInv (j : VideoJob) : Prop :=
  (j.status = JobStatus.COMPLETED → j.transcript.isSome ∧ j.error = none) ∧
  (j.status = JobStatus.ERROR → j.error.isSome ∧ j.transcript = none) ∧
  (j.status = JobStatus.IDLE ∨ j.status = JobStatus.UPLOADING ∨
      j.status = JobStatus.PROCESSING →
    j.transcript = none ∧ j.error = none)

/-- The inductive invariant: distinct job ids, distinct in-flight task
targets, the status invariant on every job, and every tasked job active. -/
def Inv (s : AppState) : Prop :=
  (s.jobs.map (fun j => j.id)).Nodup ∧
  (s.tasks.map (fun t => t.jobId)).Nodup ∧
  (∀ j ∈ s.jobs, StatusInv j) ∧
  (∀ t ∈ s.tasks, ∀ j ∈ s.jobs, j.id = t.jobId → isActive j = true)

theorem statusInv_of_fields {a b : VideoJob} (hst : a.status = b.status)
    (htr : a.transcript = b.transcript) (her : a.error = b.error)
    (hb : StatusInv b) : StatusInv a := by
  unfold StatusInv at hb ⊢
  rw [hst, htr, her]
  exact hb

theorem applyUpdate_metaUpd (j : VideoJob) (t th : String) :
    applyUpdate j (metaUpd t th) = { j with name := t, thumbnail := some th } := rfl

theorem applyUpdate_completedUpd (j : VideoJob) (t : String) :
    applyUpdate j (completedUpd t) =
      { j with
          status := JobStatus.COMPLETED
          transcript := some t
          progress := 100 } := rfl

theorem applyUpdate_errorUpd (j : VideoJob) (m : String) :
    applyUpdate j (errorUpd m) =
      { j with status := JobStatus.ERROR, error := some m, progress := 0 } := rfl

theorem applyUpdate_missingKeyUpd (j : VideoJob) :
    applyUpdate j missingKeyUpd =
      { j with
          status := JobStatus.ERROR
          error := some "Missing Gemini API Key" } := rfl

theorem applyUpdate_retryUpd (j : VideoJob) :
    applyUpdate j retryUpd =
      { j with status := JobStatus.IDLE, error := none, progress := 0 } := rfl

theorem statusInv_updateJob (jobs : List VideoJob) (i : String) (u : JobUpdate)
    (hinv : ∀ j ∈ jobs, StatusInv j)
    (hupd : ∀ x ∈ jobs, x.id = i → StatusInv (applyUpdate x u)) :
    ∀ j ∈ updateJob jobs i u, StatusInv j := by
  intro j hj
  rcases List.mem_map.1 hj with ⟨x, hx, rfl⟩
  by_cases h : x.id = i
  · simp only [if_pos h]
    exact hupd x hx h
  · simp only [if_neg h]
    exact hinv x hx

theorem isActive_of_not_idle_terminal {j : VideoJob}
    (h : j.status = JobStatus.UPLOADING ∨ j.status = JobStatus.PROCESSING) :
    isActive j = true := by
  rcases h with h | h <;> simp [isActive, h]

theorem active_fields_none {j : VideoJob} (hsi : StatusInv j)
    (ha : isActive j = true) : j.transcript = none ∧ j.error = none := by
  rw [isActive] at ha
  rcases Bool.or_eq_true_iff.1 ha with h | h <;>
    simp only [decide_eq_true_eq] at h
  · exact hsi.2.2 (Or.inr (Or.inr h))
  · exact hsi.2.2 (Or.inr (Or.inl h))

theorem statusInv_admitUpd (cfg : KeyConfig) (x : VideoJob) (hx : StatusInv x)
    (hidle : x.status = JobStatus.IDLE) :
    StatusInv (applyUpdate x (admitUpd cfg x)) := by
  obtain ⟨htr, her⟩ := hx.2.2 (Or.inl hidle)
  rw [admitUpd]
  by_cases h1 : getActiveApiKey cfg = ""
  · rw [if_pos h1, applyUpdate_missingKeyUpd]
    exact ⟨(by intro h; cases h), fun _ => ⟨rfl, htr⟩,
      (by intro h; rcases h with h | h | h <;> cases h)⟩
  · rw [if_neg h1]
    by_cases h2 : x.source = JobSource.youtube ∧ x.url.isSome
    · rw [if_pos h2, applyUpdate_statusUpd]
      exact ⟨(by intro h; cases h), (by intro h; cases h), fun _ => ⟨htr, her⟩⟩
    · rw [if_neg h2]
      by_cases h3 : x.source = JobSource.file ∧ x.file.isSome
      · rw [if_pos h3, applyUpdate_statusUpd]
        exact ⟨(by intro h; cases h), (by intro h; cases h), fun _ => ⟨htr, her⟩⟩
      · rw [if_neg h3, applyUpdate_errorUpd]
        exact ⟨(by intro h; cases h), fun _ => ⟨rfl, htr⟩,
          (by intro h; rcases h with h | h | h <;> cases h)⟩

theorem admitUpd_active_of_spawns (cfg : KeyConfig) (x : VideoJob)
    (hs : spawns cfg x) : isActive (applyUpdate x (admitUpd cfg x)) = true := by
  rw [admitUpd, if_neg hs.1]
  rcases hs.2 with h | h
  · rw [if_pos h, applyUpdate_statusUpd]
    simp [isActive]
  · have hns : ¬(x.source = JobSource.youtube ∧ x.url.isSome) := by
      rintro ⟨hc, -⟩
      rw [h.1] at hc
      cases hc
    rw [if_neg hns, if_pos h, applyUpdate_statusUpd]
    simp [isActive]

theorem statusInv_fresh {j : VideoJob} (hst : j.status = JobStatus.IDLE)
    (htr : j.transcript = none) (her : j.error = none) : StatusInv j := by
  refine ⟨?_, ?_, fun _ => ⟨htr, her⟩⟩ <;> (intro h; rw [hst] at h; cases h)

theorem not_active_of_idle {j : VideoJob} (h : j.status = JobStatus.IDLE) :
    isActive j = false := by
  simp [isActive, h]

theorem error_of_not_active {j : VideoJob} (ha : isActive j = true) :
    j.status ≠ JobStatus.ERROR := by
  intro he
  rw [isActive, he] at ha
  simp at ha

theorem taskActive_updateJob (jobs : List VideoJob) (tasks : List TranscribeTask)
    (i : String) (u : JobUpdate) (hu : u.id = none)
    (hta : ∀ t ∈ tasks, ∀ j ∈ jobs, j.id = t.jobId → isActive j = true)
    (hupd : ∀ x ∈ jobs, x.id = i → isActive x = true →
      isActive (applyUpdate x u) = true) :
    ∀ t ∈ tasks, ∀ j ∈ updateJob jobs i u, j.id = t.jobId → isActive j = true := by
  intro t ht j hj hji
  rcases List.mem_map.1 hj with ⟨x, hx, rfl⟩
  by_cases h : x.id = i
  · simp only [if_pos h] at hji ⊢
    rw [applyUpdate_id_of_none x u hu] at hji
    exact hupd x hx h (hta t ht x hx hji)
  · simp only [if_neg h] at hji ⊢
    exact hta t ht x hx hji

/-- Every observable step of the App preserves the invariant. -/
theorem step_preserves_inv {s s2 : AppState} (hstep : Step s s2) (hinv : Inv s) :
    Inv s2 := by
  obtain ⟨hnd, hndt, hsi, hta⟩ := hinv
  cases hstep with
  | enqueueFiles newJobs hfresh hshape =>
    refine ⟨?_, hndt, ?_, ?_⟩
    · rw [List.map_append, List.nodup_append]
      refine ⟨hnd, hfresh.1, ?_⟩
      intro a ha hb
      rcases List.mem_map.1 ha with ⟨x, hx, rfl⟩
      rcases List.mem_map.1 hb with ⟨y, hy, hxy⟩
      exact (hfresh.2 y hy).1 x hx hxy.symm
    · intro j hj
      rcases List.mem_append.1 hj with hj | hj
      · exact hsi j hj
      · obtain ⟨-, -, -, -, hst, htr, her, -⟩ := hshape j hj
        exact statusInv_fresh hst htr her
    · intro t ht j hj hji
      rcases List.mem_append.1 hj with hj | hj
      · exact hta t ht j hj hji
      · exact absurd hji.symm ((hfresh.2 j hj).2 t ht)
  | enqueueYoutube newJobs hfresh hshape =>
    refine ⟨?_, hndt, ?_, ?_⟩
    · rw [List.map_append, List.nodup_append]
      refine ⟨hnd, hfresh.1, ?_⟩
      intro a ha hb
      rcases List.mem_map.1 ha with ⟨x, hx, rfl⟩
      rcases List.mem_map.1 hb with ⟨y, hy, hxy⟩
      exact (hfresh.2 y hy).1 x hx hxy.symm
    · intro j hj
      rcases List.mem_append.1 hj with hj | hj
      · exact hsi j hj
      · obtain ⟨-, -, -, hst, htr, her, -⟩ := hshape j hj
        exact statusInv_fresh hst htr her
    · intro t ht j hj hji
      rcases List.mem_append.1 hj with hj | hj
      · exact hta t ht j hj hji
      · exact absurd hji.symm ((hfresh.2 j hj).2 t ht)
  | metadataArrives i title thumb =>
    refine ⟨?_, hndt, ?_, ?_⟩
    · rw [updateJob_map_id _ _ _ rfl]
      exact hnd
    · refine statusInv_updateJob _ _ _ hsi (fun x hx _ => ?_)
      rw [applyUpdate_metaUpd]
      exact statusInv_of_fields rfl rfl rfl (hsi x hx)
    · refine taskActive_updateJob _ _ _ _ rfl hta (fun x _ _ ha => ?_)
      rw [applyUpdate_metaUpd]
      rw [isActive] at ha ⊢
      exact ha
  | queuePass =>
    by_cases hrun : s.running = true
    · have hclosed := schedulerPass_closed s hnd hrun
      have hmem : ∀ x ∈ s.jobs, x.id ∈ (admittedJobs s).map (fun j => j.id) →
          x ∈ admittedJobs s := by
        intro x hx hxid
        rcases List.mem_map.1 hxid with ⟨j, hj, hjid⟩
        have hjx : j = x := id_unique hnd (admittedJobs_mem s j hj).1 hx hjid
        exact hjx ▸ hj
      have hid : ∀ x, ((fun x =>
          if x.id ∈ (admittedJobs s).map (fun j => j.id)
          then applyUpdate x (admitUpd s.cfg x) else x) x).id = x.id := by
        intro x
        by_cases h : x.id ∈ (admittedJobs s).map (fun j => j.id)
        · simp only [if_pos h]
          exact applyUpdate_id_of_none _ _ (admitUpd_id _ _)
        · simp only [if_neg h]
      rw [hclosed]
      refine ⟨?_, ?_, ?_, ?_⟩
      · simp only [List.map_map]
        have : (s.jobs.map (fun x => ((fun x =>
            if x.id ∈ (admittedJobs s).map (fun j => j.id)
            then applyUpdate x (admitUpd s.cfg x) else x) x).id)) =
            s.jobs.map (fun x => x.id) :=
          List.map_congr_left (fun x _ => hid x)
        rw [show ((fun j => j.id) ∘ (fun x =>
            if x.id ∈ (admittedJobs s).map (fun j => j.id)
            then applyUpdate x (admitUpd s.cfg x) else x)) = fun x : VideoJob =>
            ((fun x => if x.id ∈ (admittedJobs s).map (fun j => j.id)
              then applyUpdate x (admitUpd s.cfg x) else x) x).id from rfl]
        rw [this]
        exact hnd
      · rw [List.map_append, List.nodup_append]
        refine ⟨hndt, ?_, ?_⟩
        · rw [List.map_map]
          rw [show ((fun t => t.jobId) ∘ mkSpawnedTask s.jobs) =
            fun j : VideoJob => j.id from rfl]
          exact (admittedJobs_ids_nodup s hnd).sublist
            ((List.filter_sublist _).map _)
        · intro a ha hb
          rcases List.mem_map.1 ha with ⟨t, ht, rfl⟩
          rcases List.mem_map.1 hb with ⟨t4, ht4, hji⟩
          rcases List.mem_map.1 ht4 with ⟨j, hj, rfl⟩
          have hj2 : j ∈ admittedJobs s := (List.mem_filter.1 hj).1
          have hidle := (admittedJobs_mem s j hj2).2
          have hjid : j.id = t.jobId := hji
          have := hta t ht j (admittedJobs_mem s j hj2).1 hjid
          rw [not_active_of_idle hidle] at this
          cases this
      · intro j hj
        rcases List.mem_map.1 hj with ⟨x, hx, rfl⟩
        by_cases h : x.id ∈ (admittedJobs s).map (fun j => j.id)
        · simp only [if_pos h]
          exact statusInv_admitUpd s.cfg x (hsi x hx)
            (admittedJobs_mem s x (hmem x hx h)).2
        · simp only [if_neg h]
          exact hsi x hx
      · intro t ht j hj hji
        rcases List.mem_map.1 hj with ⟨x, hx, rfl⟩
        rw [hid x] at hji
        rcases List.mem_append.1 ht with ht | ht
        · have hact := hta t ht x hx hji
          have hnm : x.id ∉ (admittedJobs s).map (fun j => j.id) := by
            intro hc
            have hidle := (admittedJobs_mem s x (hmem x hx hc)).2
            rw [not_active_of_idle hidle] at hact
            cases hact
          simp only [if_neg hnm]
          exact hact
        · rcases List.mem_map.1 ht with ⟨y, hy, rfl⟩
          have hy2 : y ∈ admittedJobs s := (List.mem_filter.1 hy).1
          have hsp : spawns s.cfg y := of_decide_eq_true (List.mem_filter.1 hy).2
          have hxy : x = y := id_unique hnd hx (admittedJobs_mem s y hy2).1 hji
          have hm : x.id ∈ (admittedJobs s).map (fun j => j.id) :=
            hxy ▸ List.mem_map_of_mem _ hy2
          simp only [if_pos hm]
          rw [hxy]
          exact admitUpd_active_of_spawns s.cfg y hsp
    · have hfalse : s.running = false := by
        cases h : s.running
        · rfl
        · exact absurd h hrun
      rw [schedulerPass_paused s hfalse]
      exact ⟨hnd, hndt, hsi, hta⟩
  | advanceTask t hmem hph =>
    refine ⟨?_, ?_, ?_, ?_⟩
    · rw [updateJob_map_id _ _ _ rfl]
      exact hnd
    · have : ((s.tasks.map (fun t2 =>
          if t2 = t then { t with phase := TaskPhase.refining } else t2)).map
          (fun t => t.jobId)) = s.tasks.map (fun t => t.jobId) := by
        rw [List.map_map]
        refine List.map_congr_left (fun t2 _ => ?_)
        by_cases h : t2 = t
        · subst h
          simp [Function.comp]
        · simp only [Function.comp, if_neg h]
      rw [this]
      exact hndt
    · refine statusInv_updateJob _ _ _ hsi (fun x hx hxi => ?_)
      have hact := hta t hmem x hx hxi
      obtain ⟨htr, her⟩ := active_fields_none (hsi x hx) hact
      rw [applyUpdate_statusUpd]
      exact ⟨(by intro h; cases h), (by intro h; cases h), fun _ => ⟨htr, her⟩⟩
    · intro t2 ht2 j hj hji
      rcases List.mem_map.1 ht2 with ⟨t3, ht3, rfl⟩
      have hjid : (if t3 = t then { t with phase := TaskPhase.refining }
          else t3).jobId = t3.jobId := by
        by_cases h : t3 = t
        · subst h
          simp
        · simp only [if_neg h]
      rw [hjid] at hji
      revert hji
      refine taskActive_updateJob _ _ _ _ rfl hta (fun x _ _ _ => ?_) t3 ht3 j hj
      rw [applyUpdate_statusUpd]
      simp [isActive]
  | taskCompletes t text lid createdAt hmem hph =>
    have htasknd : s.tasks.Nodup := hndt.of_map _
    refine ⟨?_, ?_, ?_, ?_⟩
    · rw [completeTask]
      simp only
      rw [updateJob_map_id _ _ _ rfl]
      exact hnd
    · exact hndt.sublist ((List.erase_sublist _ _).map _)
    · refine statusInv_updateJob _ _ _ hsi (fun x hx hxi => ?_)
      have hact := hta t hmem x hx hxi
      obtain ⟨htr, her⟩ := active_fields_none (hsi x hx) hact
      rw [applyUpdate_completedUpd]
      exact ⟨fun _ => ⟨rfl, her⟩, (by intro h; cases h),
        (by intro h; rcases h with h | h | h <;> cases h)⟩
    · intro t2 ht2 j hj hji
      have ht2m : t2 ∈ s.tasks := List.mem_of_mem_erase ht2
      have ht2ne : t2 ≠ t := (htasknd.mem_erase_iff.1 ht2).1
      have hjidne : t2.jobId ≠ t.jobId := by
        intro he
        exact ht2ne (List.inj_on_of_nodup_map hndt ht2m hmem he)
      rcases List.mem_map.1 hj with ⟨x, hx, rfl⟩
      by_cases h : x.id = t.jobId
      · exfalso
        rw [if_pos h, applyUpdate_id_of_none _ _ rfl] at hji
        exact hjidne (hji ▸ h ▸ rfl)
      · rw [if_neg h] at hji ⊢
        exact hta t2 ht2m x hx hji
  | taskFails t msg hmem =>
    have htasknd : s.tasks.Nodup := hndt.of_map _
    refine ⟨?_, ?_, ?_, ?_⟩
    · rw [failTask]
      simp only
      rw [updateJob_map_id _ _ _ rfl]
      exact hnd
    · exact hndt.sublist ((List.erase_sublist _ _).map _)
    · refine statusInv_updateJob _ _ _ hsi (fun x hx hxi => ?_)
      have hact := hta t hmem x hx hxi
      obtain ⟨htr, her⟩ := active_fields_none (hsi x hx) hact
      rw [applyUpdate_errorUpd]
      exact ⟨(by intro h; cases h), fun _ => ⟨rfl, htr⟩,
        (by intro h; rcases h with h | h | h <;> cases h)⟩
    · intro t2 ht2 j hj hji
      have ht2m : t2 ∈ s.tasks := List.mem_of_mem_erase ht2
      have ht2ne : t2 ≠ t := (htasknd.mem_erase_iff.1 ht2).1
      have hjidne : t2.jobId ≠ t.jobId := by
        intro he
        exact ht2ne (List.inj_on_of_nodup_map hndt ht2m hmem he)
      rcases List.mem_map.1 hj with ⟨x, hx, rfl⟩
      by_cases h : x.id = t.jobId
      · exfalso
        rw [if_pos h, applyUpdate_id_of_none _ _ rfl] at hji
        exact hjidne (hji ▸ h ▸ rfl)
      · rw [if_neg h] at hji ⊢
        exact hta t2 ht2m x hx hji
  | retry i herr =>
    refine ⟨?_, hndt, ?_, ?_⟩
    · rw [retryJob]
      simp only
      rw [updateJob_map_id _ _ _ rfl]
      exact hnd
    · refine statusInv_updateJob _ _ _ hsi (fun x hx hxi => ?_)
      have hxe := herr x hx hxi
      obtain ⟨-, htr⟩ := (hsi x hx).2.1 hxe
      rw [applyUpdate_retryUpd]
      exact ⟨(by intro h; cases h), (by intro h; cases h), fun _ => ⟨htr, rfl⟩⟩
    · intro t ht j hj hji
      rcases List.mem_map.1 hj with ⟨x, hx, rfl⟩
      by_cases h : x.id = i
      · exfalso
        have hact := hta t ht x hx (by
          rw [if_pos h, applyUpdate_id_of_none _ _ rfl] at hji
          exact hji)
        exact error_of_not_active hact (herr x hx h)
      · rw [if_neg h] at hji ⊢
        exact hta t ht x hx hji
  | retryAll =>
    have hid : ∀ x : VideoJob, ((fun job =>
        if job.status = JobStatus.ERROR then applyUpdate job retryUpd else job)
        x).id = x.id := by
      intro x
      by_cases h : x.status = JobStatus.ERROR
      · simp only [if_pos h]
        exact applyUpdate_id_of_none _ _ rfl
      · simp only [if_neg h]
    refine ⟨?_, hndt, ?_, ?_⟩
    · rw [retryAllFailed]
      simp only [List.map_map]
      rw [show ((fun j : VideoJob => j.id) ∘ (fun job =>
          if job.status = JobStatus.ERROR then applyUpdate job retryUpd else job)) =
          fun x : VideoJob => ((fun job =>
            if job.status = JobStatus.ERROR then applyUpdate job retryUpd else job)
            x).id from rfl]
      rw [List.map_congr_left (fun x _ => hid x)]
      exact hnd
    · intro j hj
      rcases List.mem_map.1 hj with ⟨x, hx, rfl⟩
      by_cases h : x.status = JobStatus.ERROR
      · simp only [if_pos h]
        obtain ⟨-, htr⟩ := (hsi x hx).2.1 h
        rw [applyUpdate_retryUpd]
        exact ⟨(by intro h2; cases h2), (by intro h2; cases h2),
          fun _ => ⟨htr, rfl⟩⟩
      · simp only [if_neg h]
        exact hsi x hx
    · intro t ht j hj hji
      rcases List.mem_map.1 hj with ⟨x, hx, rfl⟩
      rw [hid x] at hji
      have hact := hta t ht x hx hji
      have h : ¬x.status = JobStatus.ERROR := error_of_not_active hact
      simp only [if_neg h]
      exact hact
  | removeJob i =>
    refine ⟨?_, hndt, ?_, ?_⟩
    · exact hnd.sublist ((List.filter_sublist _).map _)
    · exact fun j hj => hsi j (List.mem_of_mem_filter hj)
    · exact fun t ht j hj hji => hta t ht j (List.mem_of_mem_filter hj) hji
  | removeLibraryItem i => exact ⟨hnd, hndt, hsi, hta⟩
  | clearLibrary => exact ⟨hnd, hndt, hsi, hta⟩
  | setRunning b => exact ⟨hnd, hndt, hsi, hta⟩
  | setConcurrency auto limit => exact ⟨hnd, hndt, hsi, hta⟩
  | setConfig cfg sk => exact ⟨hnd, hndt, hsi, hta⟩

/-- Every reachable state satisfies the inductive invariant. -/
theorem reachable_inv (s : AppState) (hreach : Reachable s) : Inv s := by
  obtain ⟨cfg, sk, library, auto, limit, hrtg⟩ := hreach
  induction hrtg with
  | refl =>
    refine ⟨List.nodup_nil, List.nodup_nil, ?_, ?_⟩
    · intro j hj
      cases hj
    · intro t ht
      cases ht
  | tail hab hstep ih =>
    exact step_preserves_inv hstep ih

/-- C4: in every reachable state, a Completed job has a transcript and no
error, an Error job has an error and no transcript (exactly one of the two
is populated in a terminal status), and a job in Idle, Uploading or
Processing has neither; in particular a job retried from Error back to
Idle carries no transcript from a prior attempt. -/
theorem jobStatus_invariant (s : AppState) (hreach : Reachable s) :
    (∀ j ∈ s.jobs,
      (j.status = JobStatus.COMPLETED → j.transcript.isSome ∧ j.error = none) ∧
      (j.status = JobStatus.ERROR → j.error.isSome ∧ j.transcript = none) ∧
      (j.status = JobStatus.IDLE ∨ j.status = JobStatus.UPLOADING ∨
          j.status = JobStatus.PROCESSING →
        j.transcript = none ∧ j.error = none)) ∧
    (∀ i, (∀ j ∈ s.jobs, j.id = i → j.status = JobStatus.ERROR) →
      ∀ j ∈ (retryJob s i).jobs, j.id = i →
        j.status = JobStatus.IDLE ∧ j.transcript = none ∧ j.error = none) := by
  have hinv := reachable_inv s hreach
  refine ⟨fun j hj => hinv.2.2.1 j hj, ?_⟩
  intro i hg j hj hji
  have hinv2 : Inv (retryJob s i) :=
    step_preserves_inv (Step.retry s i hg) hinv
  rcases List.mem_map.1 hj with ⟨x, hx, rfl⟩
  by_cases h : x.id = i
  · simp only [if_pos h]
    rw [applyUpdate_retryUpd]
    have hxe := hg x hx h
    obtain ⟨-, htr⟩ := (hinv.2.2.1 x hx).2.1 hxe
    exact ⟨rfl, htr, rfl⟩
  · exfalso
    simp only [if_neg h] at hji
    exact h hji

/-- Witness for jobStatus_invariant: after enqueuing one file job into the
initial state, that job has no transcript and no error, and retrying a
state whose sole matching job is failed clears the error and keeps no
transcript. -/
theorem jobStatus_invariant_witness :
    jobA.transcript = none ∧ jobA.error = none := by
  have hreach : Reachable { initState ⟨[], none, none⟩ "" [] true 3 with
      jobs := (initState ⟨[], none, none⟩ "" [] true 3).jobs ++ [jobA] } :=
    ⟨⟨[], none, none⟩, "", [], true, 3, Relation.ReflTransGen.single
      (Step.enqueueFiles _ [jobA] (by constructor <;> decide)
        (by
          intro j hj
          rw [List.mem_singleton] at hj
          subst hj
          exact ⟨rfl, rfl, rfl, rfl, rfl, rfl, rfl, rfl⟩))⟩
  have h := (jobStatus_invariant _ hreach).1 jobA (by simp [initState])
  exact h.2.2 (Or.inl (by decide))

/-! A concrete trace showing that the library item created on completion
is built from the jobs array captured when processJob was invoked, so a
video title that arrives after admission is not reflected in the library,
although the completed job itself shows the fresh title.  The source
comment above the find call states the intent of reading the latest
state including the name updated by the metadata fetch; the captured
closure defeats it. -/

/-- The enqueued youtube job (its name starts as the raw url). -/
def jobU : VideoJob :=
  { id := "y1", source := JobSource.youtube, file := none,
    url := some "https://youtu.be/dQw4w9WgXcQ", thumbnail := none,
    name := "https://youtu.be/dQw4w9WgXcQ", size := none,
    status := JobStatus.IDLE, transcript := none, error := none, progress := 0 }

/-- Credential configuration with one valid key. -/
def traceCfg : KeyConfig :=
  { apiKeys := [⟨"k1", "main", "gk"⟩], activeKeyId := some "k1", systemKey := none }

/-- After enqueuing the youtube job. -/
def traceS1 : AppState :=
  { initState traceCfg "" [] true 3 with
    jobs := (initState traceCfg "" [] true 3).jobs ++ [jobU] }

/-- After the scheduling pass admits the job (task spawned with the
admission-time snapshot). -/
def traceS2 : AppState := (schedulerPass traceS1).1

/-- After the video title arrives asynchronously. -/
def traceS3 : AppState :=
  { traceS2 with
    jobs := updateJob traceS2.jobs "y1" (metaUpd "Cool Video Title" "thumb.jpg") }

/-- The in-flight task spawned by the pass. -/
def traceTask : TranscribeTask := ⟨"y1", traceS1.jobs, jobU, TaskPhase.fetching⟩

/-- After the transcript fetch resolves and refinement starts. -/
def traceS4 : AppState :=
  { traceS3 with
    jobs := updateJob traceS3.jobs traceTask.jobId (statusUpd JobStatus.PROCESSING)
    tasks := traceS3.tasks.map (fun t2 =>
      if t2 = traceTask then { traceTask with phase := TaskPhase.refining } else t2) }

/-- The task once refinement is awaited. -/
def traceTask2 : TranscribeTask := { traceTask with phase := TaskPhase.refining }

/-- After the task completes with the refined transcript. -/
def traceS5 : AppState :=
  completeTask traceS4 traceTask2 "the transcript" "lib1" "2026-02-03T00:00:00Z"

/-- C7 failing trace: the completed job carries the fresh title, but the
library item just created for it carries the stale admission-time name
(the raw url), contradicting the freshest-name-at-completion claim. -/
theorem staleDisplayName_bug :
    Reachable traceS5 ∧
    (∀ j ∈ traceS5.jobs, j.status = JobStatus.COMPLETED ∧
      j.name = "Cool Video Title" ∧ j.transcript = some "the transcript") ∧
    traceS5.library.length = 1 ∧
    (∀ item ∈ traceS5.library,
      item.fileName = "https://youtu.be/dQw4w9WgXcQ" ∧
      item.fileName ≠ "Cool Video Title" ∧
      item.transcript = "the transcript" ∧
      item.fileSize = 0) := by
  refine ⟨?_, by decide, by decide, by decide⟩
  refine ⟨traceCfg, "", [], true, 3, ?_⟩
  have h1 : Step (initState traceCfg "" [] true 3) traceS1 := by
    refine Step.enqueueYoutube _ [jobU] ⟨by decide, by decide⟩ ?_
    intro j hj
    rw [List.mem_singleton] at hj
    subst hj
    exact ⟨rfl, rfl, ⟨"https://youtu.be/dQw4w9WgXcQ", rfl, rfl⟩, rfl, rfl, rfl, rfl⟩
  have h2 : Step traceS1 traceS2 := Step.queuePass traceS1
  have h3 : Step traceS2 traceS3 :=
    Step.metadataArrives traceS2 "y1" "Cool Video Title" "thumb.jpg"
  have h4 : Step traceS3 traceS4 :=
    Step.advanceTask traceS3 traceTask (by decide) rfl
  have h5 : Step traceS4 traceS5 :=
    Step.taskCompletes traceS4 traceTask2 "the transcript" "lib1"
      "2026-02-03T00:00:00Z" (by decide) rfl
  exact ((((Relation.ReflTransGen.single h1).tail h2).tail h3).tail h4).tail h5

end BatchTranscriber
